import Mathlib

/-!
Verification of the pto3-go core against its specification.

The Go sources are shallowly embedded: Go maps with zero-value reads become
functions or association lists, the PostgreSQL `paths_id_seq` sequence becomes
an explicit counter state, filesystem interaction becomes explicit stat-result
inputs, and fallible operations return `Except`/`Option`. Machine integers are
modelled as `Nat`/`Int` (id values and byte counts never approach overflow in
the modelled code paths).
-/

namespace PTO3

/-! ## Path cache (`path.go`)

`PathCache` is `map[string]int` in Go; reading an absent key yields the zero
value `0`, so the cache is modelled as a total function `String → Nat` where
`0` means "not cached". The PostgreSQL sequence `paths_id_seq` is modelled as
the last value returned by `nextval` (`is_called = true` convention):
`nextval` advances the counter by one and returns the new value, `setval v`
sets the counter to `v` so that the next `nextval` returns `v + 1`. -/

def PathCache : Type := String → Nat

/-- State of the shared `paths_id_seq` sequence: `last` is the last value
returned by `nextval`. -/
structure SeqState where
  last : Nat
deriving DecidableEq

/-- `SELECT nextval('paths_id_seq')`: advances the sequence and returns the
new value. -/
def nextval (s : SeqState) : Nat × SeqState :=
  (s.last + 1, ⟨s.last + 1⟩)

/-- `SELECT setval('paths_id_seq', v)`: the next `nextval` will return `v+1`. -/
def setval (v : Nat) : SeqState :=
  ⟨v⟩

/-- Store a binding in the cache (Go map assignment). -/
def cachePut (c : PathCache) (k : String) (v : Nat) : PathCache :=
  fun s => if s = k then v else c s

/-- The body of the streaming goroutine in `CacheNewPaths`: walk the remaining
path set, store `cache[pathstring] = pidseq` and increment `pidseq` for each
entry. (The CSV bytes streamed to `COPY` carry the same pairs and are not
modelled separately.) -/
def cacheNewPathsLoop (c : PathCache) (pidseq : Nat) : List String → PathCache
  | [] => c
  | p :: rest => cacheNewPathsLoop (cachePut c p pidseq) (pidseq + 1) rest

/-- Result of `CacheNewPaths`: the updated cache, the sequence state, and the
mutated candidate set (Go mutates `pathSet` in place; the model returns it). -/
structure CacheNewPathsResult where
  cache : PathCache
  seq : SeqState
  pathSet : List String

/-- `PathCache.CacheNewPaths`: pre-filter the candidate set against the
in-process cache only (`delete(pathSet, ps)` whenever `cache[ps] > 0`),
take `pidseq := nextval('paths_id_seq')`, `setval` the sequence to
`pidseq + len(pathSet)`, then assign consecutive ids starting at `pidseq`
while streaming into the database. The candidate set is a Go
`map[string]struct{}`, modelled as a duplicate-free list. -/
def CacheNewPaths (c : PathCache) (seq : SeqState) (pathSet : List String) :
    CacheNewPathsResult :=
  let remaining := pathSet.filter (fun ps => c ps == 0)
  let r := nextval seq
  let pidseq := r.1
  let seq2 := setval (pidseq + remaining.length)
  { cache := cacheNewPathsLoop c pidseq remaining
    seq := seq2
    pathSet := remaining }

/-! ### Lemmas about the assignment loop -/

theorem cacheNewPathsLoop_not_mem (c : PathCache) (p : Nat) (l : List String)
    (s : String) (h : s ∉ l) : cacheNewPathsLoop c p l s = c s := by
  induction l generalizing c p with
  | nil => rfl
  | cons a t ih =>
    simp only [List.mem_cons, not_or] at h
    simp only [cacheNewPathsLoop]
    rw [ih _ _ h.2]
    simp [cachePut, h.1]

theorem cacheNewPathsLoop_get (c : PathCache) (p : Nat) (l : List String)
    (hnd : l.Nodup) (i : Fin l.length) :
    cacheNewPathsLoop c p l (l.get i) = p + i := by
  induction l generalizing c p with
  | nil => exact absurd i.2 (by simp)
  | cons a t ih =>
    rcases List.nodup_cons.mp hnd with ⟨ha, ht⟩
    rcases i with ⟨iv, hi⟩
    cases iv with
    | zero =>
      simp only [List.get, cacheNewPathsLoop]
      rw [cacheNewPathsLoop_not_mem _ _ _ _ ha]
      simp [cachePut]
    | succ j =>
      simp only [List.get, cacheNewPathsLoop]
      have := ih (cachePut c a p) (p + 1) ht ⟨j, Nat.lt_of_succ_lt_succ hi⟩
      rw [this]
      simp only [Fin.val_mk]
      omega

/-! ## Observation / Observation Set model and codec (`obs.go`)

JSON values appearing in observation lines and observation-set metadata
objects are modelled by `JVal`. JSON numbers are modelled as exact integers
(the Go code decodes them as `float64` and re-renders them with `%v`; for the
magnitudes appearing as set ids and values this composite is the identity and
is modelled as such). An RFC3339 timestamp string is modelled by the
constructor `jtime` carrying the UTC instant it denotes, abstracting the
rendering: `time.Format`/`time.Parse` on the RFC3339 layout is a bijection
between whole-second UTC instants and their strings, so tagging the instant
keeps the codec faithful while avoiding a calendar model. -/

inductive JVal where
  | jnull
  | jnum (n : Int)
  | jstr (s : String)
  | jtime (t : Int)
  | jarr (l : List String)
deriving DecidableEq

/-- `AsString` from `pto.go`: a string is itself; any other value is rendered
with `fmt.Sprintf`. Renderings of non-strings are only ever fed to parsers
that reject them (or to metadata maps); the exact text matters only in that a
timestamp or array rendering is not a decimal integer. -/
def asString : JVal → String
  | .jnull => "<nil>"
  | .jnum n => toString n
  | .jstr s => s
  | .jtime t => "rfc3339:" ++ toString t
  | .jarr l => toString l

/-- `AsStringArray` from `pto.go`: a string becomes a one-element array, an
array of strings is itself, anything else fails. -/
def asStringArray : JVal → Option (List String)
  | .jstr s => some [s]
  | .jarr l => some l
  | _ => none

/-- Decimal digit accumulation for `strconv.Atoi` (character level). -/
def digitsToNatAux (acc : Nat) : List Char → Option Nat
  | [] => some acc
  | c :: rest =>
    if c.isDigit then digitsToNatAux (acc * 10 + (c.toNat - 48)) rest else none

/-- A non-empty run of decimal digits, or failure. -/
def digitsToNat : List Char → Option Nat
  | [] => none
  | l => digitsToNatAux 0 l

/-- `strconv.Atoi`: an optional sign followed by at least one decimal digit;
anything else is an error. -/
def atoi (s : String) : Option Int :=
  match s.data with
  | [] => none
  | '-' :: rest => (digitsToNat rest).map (fun n => -(n : Int))
  | '+' :: rest => (digitsToNat rest).map (fun n => (n : Int))
  | l => (digitsToNat l).map (fun n => (n : Int))

/-- The composite `strconv.Atoi(AsString(v))` used on the set-id and value
slots: succeeds exactly on integer-valued slots (a JSON number round-trips
through its decimal rendering; a decimal string parses; timestamp, array and
null renderings are not decimal integers). -/
def jvalAtoi : JVal → Option Int
  | .jnum n => some n
  | .jstr s => atoi s
  | _ => none

/-- The composite `time.Parse(time.RFC3339, AsString(v))` used on the two
timestamp slots: succeeds exactly on RFC3339 timestamp strings. -/
def jvalTime : JVal → Option Int
  | .jtime t => some t
  | _ => none

structure Path where
  id : Int
  string : String
deriving DecidableEq

structure Condition where
  id : Int
  name : String
deriving DecidableEq

/-- The `Observation` row. `Start`/`End` are UTC instants in whole seconds
(`stop` stands for the source's `End`, a reserved word here); `path` and
`condition` model the Go pointer fields, `none` being a nil pointer. -/
structure Observation where
  id : Int
  setID : Int
  start : Int
  stop : Int
  pathID : Int
  path : Option Path
  conditionID : Int
  condition : Option Condition
  value : Int
deriving DecidableEq

/-- A freshly declared `var obs pto3.Observation`. -/
def zeroObservation : Observation :=
  { id := 0, setID := 0, start := 0, stop := 0, pathID := 0, path := none
    conditionID := 0, condition := none, value := 0 }

/-- `Observation.MarshalJSON`: the ordered array
`[setId, start, end, pathString, conditionName]` with `value` appended only
when non-zero. Dereferences the path and condition pointers; `none` models
the nil-pointer fault, which cannot occur for a valid observation. -/
def marshalObservation (obs : Observation) : Option (List JVal) :=
  match obs.path, obs.condition with
  | some p, some c =>
      some ([JVal.jnum obs.setID, JVal.jtime obs.start, JVal.jtime obs.stop,
             JVal.jstr p.string, JVal.jstr c.name]
        ++ (if obs.value ≠ 0 then [JVal.jnum obs.value] else []))
  | _, _ => none

/-- `Observation.UnmarshalJSON` on an already-decoded JSON array, filling in
the receiver `obs`: requires at least five elements; the set-id slot is
parsed with its error discarded (`obs.SetID, err = strconv.Atoi(...)` is
immediately followed by an assignment to `err`); timestamp parse failures and
a bad sixth slot abort with an error; path and condition become transient
records with id 0. -/
def unmarshalObservation (obs : Observation) (j : List JVal) :
    Except String Observation :=
  match j with
  | a :: b :: c :: d :: e :: rest =>
    let obs1 : Observation := { obs with id := 0, setID := (jvalAtoi a).getD 0 }
    match jvalTime b with
    | none => .error "cannot parse start time"
    | some st =>
      match jvalTime c with
      | none => .error "cannot parse end time"
      | some en =>
        let obs2 : Observation :=
          { obs1 with start := st, stop := en
                      path := some { id := 0, string := asString d }
                      condition := some { id := 0, name := asString e } }
        match rest with
        | [] => .ok obs2
        | f :: _ =>
          match jvalAtoi f with
          | none => .error "cannot parse value"
          | some v => .ok { obs2 with value := v }
  | _ => .error "Observation requires at least five elements"

/-- The `ObservationSet` row; `sources` is a Go slice that may be nil
(`none`). `link`, `datalink` and `count` are the unexported derived fields. -/
structure ObservationSet where
  id : Int
  sources : Option (List String)
  analyzer : String
  metadata : List (String × String)
  datalink : String
  link : String
  count : Int
deriving DecidableEq

/-- A freshly declared `var set pto3.ObservationSet`. -/
def zeroObservationSet : ObservationSet :=
  { id := 0, sources := none, analyzer := "", metadata := [], datalink := ""
    link := "", count := 0 }

/-- `strings.HasPrefix` at character level (the keys involved are ASCII, so
Go's byte-wise prefix test coincides with the character-wise one). -/
def strStartsWith (s pre : String) : Bool :=
  pre.data.isPrefixOf s.data

/-- Go map assignment `m[k] = v` on an association list: overwrite the
binding if the key is present, append it otherwise. -/
def mapSet {α : Type} (m : List (String × α)) (k : String) (v : α) :
    List (String × α) :=
  if m.any (fun kv => kv.1 == k) then
    m.map (fun kv => if kv.1 == k then (k, v) else kv)
  else m ++ [(k, v)]

/-- Go map read `m[k]` on an association list (`none` = key absent). -/
def mapFind {α : Type} (m : List (String × α)) (k : String) : Option α :=
  (m.find? (fun kv => kv.1 == k)).map Prod.snd

/-- `ObservationSet.MarshalJSON`: build the flat JSON object with `_sources`
and `_analyzer`, the derived `__link`/`__data`/`__obs_count` when set, then
all extension metadata keys (map assignment order as in the source). A nil
`Sources` slice marshals to JSON `null`. -/
def marshalObservationSet (s : ObservationSet) : List (String × JVal) :=
  let m := mapSet ([] : List (String × JVal)) "_sources"
      (match s.sources with
       | some l => JVal.jarr l
       | none => JVal.jnull)
  let m := mapSet m "_analyzer" (JVal.jstr s.analyzer)
  let m := if s.link ≠ "" then mapSet m "__link" (JVal.jstr s.link) else m
  let m := if s.datalink ≠ "" then mapSet m "__data" (JVal.jstr s.datalink) else m
  let m := if s.count ≠ 0 then mapSet m "__obs_count" (JVal.jnum s.count) else m
  s.metadata.foldl (fun m kv => mapSet m kv.1 (JVal.jstr kv.2)) m

/-- The key loop of `ObservationSet.UnmarshalJSON`: `_sources` must be a
string array, `_analyzer` is stringified, incoming `__`-prefixed keys are
ignored, everything else lands in the metadata map. -/
def setLoop (s : ObservationSet) : List (String × JVal) →
    Except String ObservationSet
  | [] => .ok s
  | (k, v) :: rest =>
    if k = "_sources" then
      match asStringArray v with
      | some l => setLoop { s with sources := some l } rest
      | none => .error "_sources not a string array"
    else if k = "_analyzer" then
      setLoop { s with analyzer := asString v } rest
    else if strStartsWith k "__" then
      setLoop s rest
    else
      setLoop { s with metadata := mapSet s.metadata k (asString v) } rest

/-- `ObservationSet.UnmarshalJSON` on an already-decoded JSON object, filling
in the receiver `s`: reset the metadata map and the id, run the key loop,
then require `_sources` and `_analyzer` to have been seen. -/
def unmarshalObservationSet (s : ObservationSet)
    (jmap : List (String × JVal)) : Except String ObservationSet :=
  match setLoop { s with metadata := [], id := 0 } jmap with
  | .error e => .error e
  | .ok s1 =>
    if s1.sources = none then .error "ObservationSet missing _sources"
    else if s1.analyzer = "" then .error "ObservationSet missing _analyzer"
    else .ok s1

/-! ## Raw metadata and campaigns (`raw.go`)

Times are UTC instants as `Int` seconds; `Option Int` models the Go
`*time.Time` (nil = absent). The parent pointer of a `RawMetadata` makes the
type a nested inductive: `core` carries the record's own fields, `parent` the
optional campaign record. Error kinds mirror the `PTOError` constructors used
by the embedded code paths. -/

/-- `strings.HasSuffix` at character level (the names involved are ASCII, so
Go's byte-wise suffix test coincides with the character-wise one; the
character-level form also lets concrete instances evaluate). -/
def strEndsWith (s post : String) : Bool :=
  post.data.isSuffixOf s.data

/-- The slice `s[0 : len(s)-n]`, at character level likewise. -/
def strDropRight (s : String) (n : Nat) : String :=
  ⟨s.data.take (s.data.length - n)⟩

/-- The name suffix of per-file metadata sidecars, `FileMetadataSuffix`. -/
def FileMetadataSuffix : String := ".pto_file_metadata.json"

inductive PTOErr where
  | missingMetadata (k : String)
  | notFound (kind name : String)
  | alreadyThere (kind name : String)
  | wrapped
  | internalPathNotOK (path : List String)
  | nilDeref
deriving DecidableEq

/-- The non-parent fields of `RawMetadata`. `datasize` is a byte count,
`creatime`/`modtime`/`timeStart`/`timeEnd` are optional instants,
`metadata` is the free-form extension map. -/
structure RawMetadataCore where
  filetype : String
  owner : String
  timeStart : Option Int
  timeEnd : Option Int
  metadata : List (String × String)
  datalink : String
  datasize : Nat
  creatime : Option Int
  modtime : Option Int
deriving DecidableEq

/-- `RawMetadata`: a metadata record with an optional (one-level-used) parent
pointer to the campaign record. -/
inductive RawMetadata where
  | mk (core : RawMetadataCore) (parent : Option RawMetadata)

def RawMetadata.core : RawMetadata → RawMetadataCore
  | .mk c _ => c

def RawMetadata.parent : RawMetadata → Option RawMetadata
  | .mk _ p => p

/-- Replace the non-parent fields of a record, keeping its parent (models
mutation of the Go struct through its pointer). -/
def RawMetadata.withCore (md : RawMetadata) (c : RawMetadataCore) : RawMetadata :=
  .mk c md.parent

/-- Replace the parent pointer of a record, keeping its own fields (used to
state that lookups never consult anything beyond one inheritance level). -/
def RawMetadata.withParent (md : RawMetadata) (p : Option RawMetadata) :
    RawMetadata :=
  .mk md.core p

/-- A record with every field empty and no parent. -/
def emptyCore : RawMetadataCore :=
  { filetype := "", owner := "", timeStart := none, timeEnd := none
    metadata := [], datalink := "", datasize := 0, creatime := none
    modtime := none }

/-- `RawMetadata.Owner`: the local owner, or the parent's when the local one
is empty, inheritance is requested and a parent exists. -/
def RawMetadata.Owner (md : RawMetadata) (inherit : Bool) : String :=
  match md.parent with
  | some p => if md.core.owner = "" ∧ inherit = true then p.core.owner else md.core.owner
  | none => md.core.owner

/-- `RawMetadata.Filetype`, same inheritance shape as `Owner`. -/
def RawMetadata.Filetype (md : RawMetadata) (inherit : Bool) : String :=
  match md.parent with
  | some p => if md.core.filetype = "" ∧ inherit = true then p.core.filetype else md.core.filetype
  | none => md.core.filetype

/-- `RawMetadata.TimeStart`, same inheritance shape with nil for absent. -/
def RawMetadata.TimeStart (md : RawMetadata) (inherit : Bool) : Option Int :=
  match md.parent with
  | some p => if md.core.timeStart = none ∧ inherit = true then p.core.timeStart else md.core.timeStart
  | none => md.core.timeStart

/-- `RawMetadata.TimeEnd`, same inheritance shape with nil for absent. -/
def RawMetadata.TimeEnd (md : RawMetadata) (inherit : Bool) : Option Int :=
  match md.parent with
  | some p => if md.core.timeEnd = none ∧ inherit = true then p.core.timeEnd else md.core.timeEnd
  | none => md.core.timeEnd

/-- Go map read with zero value: `md.Metadata[k]` is `""` when absent. -/
def metaGet (m : List (String × String)) (k : String) : String :=
  (mapFind m k).getD ""

/-- `RawMetadata.Get`: extension-key lookup; when the local value is empty,
inheritance is requested and a parent exists, read the parent's map (one
level, directly on the parent's own map). -/
def RawMetadata.Get (md : RawMetadata) (k : String) (inherit : Bool) : String :=
  let out := metaGet md.core.metadata k
  match md.parent with
  | some p => if out = "" ∧ inherit = true then metaGet p.core.metadata k else out
  | none => out

/-- `RawMetadata.validate`: every record needs an owner after inheritance;
campaign-level records need nothing else; file-level records additionally
need a filetype, a start time and an end time, each after inheritance.
Returns `some` error (as the Go function returns non-nil) naming the first
absent key. -/
def RawMetadata.validate (md : RawMetadata) (isCampaign : Bool) : Option PTOErr :=
  if md.Owner true = "" then some (.missingMetadata "_owner")
  else if isCampaign = true then none
  else if md.Filetype true = "" then some (.missingMetadata "_file_type")
  else if md.TimeStart true = none then some (.missingMetadata "_time_start")
  else if md.TimeEnd true = none then some (.missingMetadata "_time_end")
  else none

/-! ### Campaign state and virtual metadata

The campaign's in-memory state is its staleness flag and its two caches; the
file-metadata cache is an `Option` because `unloadMetadata` sets the Go map
to nil, and map values are `Option RawMetadata` because the reload loop's
multi-assignment stores a nil pointer for a file whose parse failed.
Filesystem interaction is an explicit input: a `StatResult` per `os.Stat`
call, a parse result per `RawMetadataFromFile` call. -/

inductive StatResult where
  | found (size : Nat) (modTime : Int)
  | notExist
  | otherError
deriving DecidableEq

structure CampaignState where
  stale : Bool
  campaignMetadata : Option RawMetadata
  fileMetadata : Option (List (String × Option RawMetadata))

/-- The data-link URL `LinkTo("raw/" + campaign + "/" + file + "/data")`
(base-URL resolution is a fixed prefix and is elided). -/
def linkFor (camName filename : String) : String :=
  "raw/" ++ camName ++ "/" ++ filename ++ "/data"

/-- The metadata-file half of `updateFileVirtualMetadata`: on a successful
stat of the sidecar, set `modtime` to the sidecar's modification time; if
`creatime` is nil, creation time falls back to `modtime`; else if
`creatime` is after `modtime`, clamp `modtime` up to `creatime`; finally set
the data link. Any stat failure (including not-exist) is an error, leaving
the record as mutated so far. -/
def applyMetaStat (md : RawMetadata) (metaStat : StatResult) (link : String) :
    RawMetadata × Option PTOErr :=
  match metaStat with
  | .found _ mt =>
    let md1 := md.withCore { md.core with modtime := some mt }
    let md2 :=
      match md1.core.creatime with
      | none => md1.withCore { md1.core with creatime := some mt }
      | some ct =>
        if ct - mt > 0 then md1.withCore { md1.core with modtime := some ct }
        else md1
    (md2.withCore { md2.core with datalink := link }, none)
  | _ => (md, some .wrapped)

/-- The record-level body of `updateFileVirtualMetadata`: stat the data file
(success sets `datasize` and `creatime` from its size and modification time;
not-exist zeroes them; any other failure is an error), then process the
sidecar stat. -/
def applyVirtualMetadata (md : RawMetadata) (dataStat metaStat : StatResult)
    (link : String) : RawMetadata × Option PTOErr :=
  match dataStat with
  | .found size mt =>
      applyMetaStat (md.withCore { md.core with datasize := size, creatime := some mt })
        metaStat link
  | .notExist =>
      applyMetaStat (md.withCore { md.core with datasize := 0, creatime := none })
        metaStat link
  | .otherError => (md, some .wrapped)

/-- `Campaign.updateFileVirtualMetadata`: look the file up in the cache
(absent is NotFound; a nil entry would fault on dereference, marked
`nilDeref`), apply the virtual-metadata computation and store the mutated
record back (Go mutates it through the cached pointer). -/
def updateFileVirtualMetadata (m : List (String × Option RawMetadata))
    (filename : String) (dataStat metaStat : StatResult) (link : String) :
    List (String × Option RawMetadata) × Option PTOErr :=
  match mapFind m filename with
  | none => (m, some (.notFound "file" filename))
  | some none => (m, some .nilDeref)
  | some (some md) =>
    match applyVirtualMetadata md dataStat metaStat link with
    | (md2, e) => (mapSet m filename (some md2), e)

/-- The creation time recorded in the file-metadata cache for a given file
(`none` when the file or its record is absent). -/
def cachedCreatime (m : List (String × Option RawMetadata)) (k : String) :
    Option Int :=
  match mapFind m k with
  | some (some md) => md.core.creatime
  | _ => none

/-! ### Reload and unload -/

/-- A directory entry seen by the reload scan, with the outcomes of the
filesystem operations the loop would perform on it: the sidecar parse result
(`none` = `RawMetadataFromFile` failed, which also makes the stored pointer
nil), and the two stat results consumed by `updateFileVirtualMetadata`. -/
structure DirEntry where
  name : String
  parse : Option RawMetadata
  dataStat : StatResult
  metaStat : StatResult

inductive LoopResult where
  | ok (fm : Option (List (String × Option RawMetadata)))
  | err (fm : Option (List (String × Option RawMetadata))) (e : PTOErr)
  | panicked

/-- The directory loop of `reloadMetadata`: entries whose name does not end
in the sidecar suffix are skipped; for each sidecar, the parse result is
stored into the file-metadata map under the trimmed name (assignment into a
nil map is a Go runtime panic), a parse failure then aborts, and otherwise
the file's virtual metadata is updated, any error aborting. -/
def reloadLoop (camName : String)
    (fm : Option (List (String × Option RawMetadata))) :
    List DirEntry → LoopResult
  | [] => .ok fm
  | e :: rest =>
    if strEndsWith e.name FileMetadataSuffix then
      let linkname := strDropRight e.name FileMetadataSuffix.length
      match fm with
      | none => .panicked
      | some m =>
        let m1 := mapSet m linkname e.parse
        match e.parse with
        | none => .err (some m1) .wrapped
        | some _ =>
          match updateFileVirtualMetadata m1 linkname e.dataStat e.metaStat
              (linkFor camName linkname) with
          | (m2, some er) => .err (some m2) er
          | (m2, none) => reloadLoop camName (some m2) rest
    else reloadLoop camName fm rest

inductive ReloadOutcome where
  | ok (st : CampaignState)
  | err (st : CampaignState) (e : PTOErr)
  | panicked (st : CampaignState)

/-- `Campaign.reloadMetadata`: no-op unless forced or stale; the
campaign-metadata read is assigned into the cache before anything else (so a
failed read leaves a nil cache behind the returned error); the directory loop
then assigns into the existing file-metadata map in place; only when
everything loads is the stale flag cleared. `camFile` is the campaign
metadata file's parse result, `dir` the directory listing (the source
ignores the `ReadDir` error itself, ranging over a nil slice on failure). -/
def reloadMetadata (cam : CampaignState) (force : Bool)
    (camFile : Option RawMetadata) (dir : List DirEntry) (camName : String) :
    ReloadOutcome :=
  if !force && !cam.stale then .ok cam
  else
    match camFile with
    | none => .err { cam with campaignMetadata := none } .wrapped
    | some cmd =>
      match reloadLoop camName cam.fileMetadata dir with
      | .ok fm =>
          .ok { stale := false, campaignMetadata := some cmd, fileMetadata := fm }
      | .err fm e =>
          .err { stale := cam.stale, campaignMetadata := some cmd, fileMetadata := fm } e
      | .panicked => .panicked { cam with campaignMetadata := some cmd }

/-- `Campaign.unloadMetadata`: nil both caches and mark stale. -/
def unloadMetadata (_cam : CampaignState) : CampaignState :=
  { stale := true, campaignMetadata := none, fileMetadata := none }

/-! ### Data-file path resolution (`ReadFileData` / `WriteFileData`)

Absolute filesystem paths are modelled as their component lists (the
campaign directory is assumed already clean, which `filepath.Join` in
`newCampaign` guarantees). `filepath.Clean(filepath.Join(dir, filename))`
splits the filename on separators and resolves `.`, `..` and empty
components; `filepath.Match(filepath.Join(dir, "*"), rawpath)` holds exactly
when the cleaned path is the directory plus one component. -/

/-- Lexical path cleaning of an absolute path given as components: empty and
`.` components vanish, `..` removes the previous component (at the root it
vanishes, as `filepath.Clean` does for absolute paths). -/
def cleanAbs (comps : List String) : List String :=
  comps.foldl
    (fun acc c =>
      if c = "" ∨ c = "." then acc
      else if c = ".." then acc.dropLast
      else acc ++ [c]) []

/-- Separator splitting at character level (filenames are handled by the Go
code as byte strings; the names involved are ASCII). -/
def splitOnSlash : List Char → List (List Char)
  | [] => [[]]
  | c :: rest =>
    if c = '/' then [] :: splitOnSlash rest
    else
      match splitOnSlash rest with
      | [] => [[c]]
      | g :: gs => (c :: g) :: gs

/-- Split a filename into path components, as the separator handling of
`filepath.Join` does. -/
def splitPath (s : String) : List String :=
  (splitOnSlash s.data).map (fun l => ⟨l⟩)

/-- `filepath.Clean(filepath.Join(base, filename))`. -/
def joinedPath (base : List String) (filename : String) : List String :=
  cleanAbs (base ++ splitPath filename)

/-! #### `filepath.Match` (`path/filepath/match.go`)

The check `filepath.Match(filepath.Join(cam.path, "*"), rawpath)` treats the
campaign path as a glob pattern, so the matcher is ported in full: `*` (no
separator crossing), `?`, `[...]` classes with ranges and `^` negation, and
backslash escapes (non-Windows separator `/`; the names involved are ASCII,
so byte-wise Go matching coincides with this character-wise port). The Go
loops become fueled recursions; every loop iteration consumes at least one
pattern character, so the fuel `length + 1` passed by each wrapper is never
exhausted and the fuel-0 arms are unreachable. -/

/-- `getEsc`: read one (possibly backslash-escaped) character of a character
class; a leading `-` or `]`, a dangling escape, or a class ending
immediately after the character are bad patterns. -/
def getEsc (chunk : List Char) : Except Unit (Char × List Char) :=
  match chunk with
  | [] => .error ()
  | c :: rest =>
    if c = '-' ∨ c = ']' then .error ()
    else if c = '\\' then
      match rest with
      | [] => .error ()
      | r :: nchunk => if nchunk.isEmpty then .error () else .ok (r, nchunk)
    else if rest.isEmpty then .error () else .ok (c, rest)

/-- The range loop of `matchChunk`'s character-class case: accumulate
whether any `lo-hi` range contains `r`, stopping at the closing `]` (which
may not come first). -/
def matchClassF : Nat → Char → Bool → Nat → List Char →
    Except Unit (Bool × List Char)
  | 0, _, _, _, _ => .error ()
  | fuel + 1, r, m, nrange, chunk =>
    if nrange > 0 ∧ chunk.head? = some ']' then .ok (m, chunk.tail)
    else
      match getEsc chunk with
      | .error _ => .error ()
      | .ok (lo, chunk1) =>
        if chunk1.head? = some '-' then
          match getEsc chunk1.tail with
          | .error _ => .error ()
          | .ok (hi, chunk3) =>
            matchClassF fuel r (m || (decide (lo ≤ r) && decide (r ≤ hi)))
              (nrange + 1) chunk3
        else
          matchClassF fuel r (m || (decide (lo ≤ r) && decide (r ≤ lo)))
            (nrange + 1) chunk1

inductive ChunkRes where
  | matched (rest : List Char)
  | failed
  | badPattern
deriving DecidableEq

/-- `matchChunk`: match a star-free pattern chunk against the head of `s`,
returning the rest of `s`; after a mismatch the chunk is still scanned to
completion so that bad patterns are reported. -/
def matchChunkF : Nat → List Char → List Char → Bool → ChunkRes
  | 0, _, _, _ => .badPattern
  | fuel + 1, chunk, s, failed =>
    match chunk with
    | [] => if failed then .failed else .matched s
    | c :: chunkRest =>
      if c = '[' then
        let failed1 := failed || s.isEmpty
        let r := if failed1 then Char.ofNat 0 else s.headD (Char.ofNat 0)
        let s1 := if failed1 then s else s.tail
        let negated := chunkRest.head? = some '^'
        let chunk1 := if chunkRest.head? = some '^' then chunkRest.tail
          else chunkRest
        match matchClassF (chunk1.length + 1) r false 0 chunk1 with
        | .error _ => .badPattern
        | .ok (m, chunk2) =>
          matchChunkF fuel chunk2 s1 (failed1 || (m == decide negated))
      else if c = '?' then
        let failed1 := failed || s.isEmpty
        if failed1 then matchChunkF fuel chunkRest s true
        else
          match s with
          | sc :: srest => matchChunkF fuel chunkRest srest (sc == '/')
          | [] => matchChunkF fuel chunkRest s true
      else if c = '\\' then
        match chunkRest with
        | [] => .badPattern
        | ec :: chunkRest2 =>
          let failed1 := failed || s.isEmpty
          if failed1 then matchChunkF fuel chunkRest2 s true
          else
            match s with
            | sc :: srest => matchChunkF fuel chunkRest2 srest (ec != sc)
            | [] => matchChunkF fuel chunkRest2 s true
      else
        let failed1 := failed || s.isEmpty
        if failed1 then matchChunkF fuel chunkRest s true
        else
          match s with
          | sc :: srest => matchChunkF fuel chunkRest srest (c != sc)
          | [] => matchChunkF fuel chunkRest s true

def matchChunk (chunk s : List Char) : ChunkRes :=
  matchChunkF (chunk.length + 1) chunk s false

/-- The leading-star stripping of `scanChunk`. -/
def stripStars : List Char → Bool × List Char
  | [] => (false, [])
  | c :: rest =>
    if c = '*' then (true, (stripStars rest).2) else (false, c :: rest)

/-- The scanning loop of `scanChunk` (after star stripping): cut the pattern
at the next `*` that is not inside a `[...]` range, with backslash skipping
the following character. -/
def scanChunkBody (inrange : Bool) : List Char → List Char × List Char
  | [] => ([], [])
  | c :: rest =>
    if c = '\\' then
      match rest with
      | [] => (['\\'], [])
      | d :: rest2 =>
        let cr := scanChunkBody inrange rest2
        ('\\' :: d :: cr.1, cr.2)
    else if c = '[' then
      let cr := scanChunkBody true rest
      (c :: cr.1, cr.2)
    else if c = ']' then
      let cr := scanChunkBody false rest
      (c :: cr.1, cr.2)
    else if c = '*' ∧ inrange = false then ([], c :: rest)
    else
      let cr := scanChunkBody inrange rest
      (c :: cr.1, cr.2)

/-- `scanChunk`: split the pattern into leading stars, the next chunk, and
the rest. -/
def scanChunk (pattern : List Char) : Bool × List Char × List Char :=
  let st := stripStars pattern
  let cr := scanChunkBody false st.2
  (st.1, cr.1, cr.2)

/-- The star-retry loop of `Match`: after a chunk fails (or leaves the name
non-empty with no pattern left) under a leading `*`, retry the chunk at each
later position of the name, stopping at a separator. -/
def matchStarLoop (chunk : List Char) (patNonempty : Bool) :
    List Char → Except Unit (Option (List Char))
  | [] => .ok none
  | c :: restName =>
    if c = '/' then .ok none
    else
      match matchChunkF (chunk.length + 1) chunk restName false with
      | .badPattern => .error ()
      | .matched t =>
        if !patNonempty && !t.isEmpty then matchStarLoop chunk patNonempty restName
        else .ok (some t)
      | .failed => matchStarLoop chunk patNonempty restName

/-- The main loop of `filepath.Match`. -/
def filepathMatchF : Nat → List Char → List Char → Except Unit Bool
  | 0, _, _ => .error ()
  | _ + 1, [], name => .ok name.isEmpty
  | fuel + 1, pattern, name =>
    let scr := scanChunk pattern
    let star := scr.1
    let chunk := scr.2.1
    let rest := scr.2.2
    if star ∧ chunk.isEmpty then .ok (!name.contains '/')
    else
      match matchChunkF (chunk.length + 1) chunk name false with
      | .matched t =>
        if t.isEmpty || !rest.isEmpty then filepathMatchF fuel rest t
        else if star then
          match matchStarLoop chunk (!rest.isEmpty) name with
          | .error _ => .error ()
          | .ok (some t2) => filepathMatchF fuel rest t2
          | .ok none => .ok false
        else .ok false
      | .badPattern => .error ()
      | .failed =>
        if star then
          match matchStarLoop chunk (!rest.isEmpty) name with
          | .error _ => .error ()
          | .ok (some t2) => filepathMatchF fuel rest t2
          | .ok none => .ok false
        else .ok false

/-- `filepath.Match(pattern, name)`: `.error` is ErrBadPattern. -/
def filepathMatch (pattern name : List Char) : Except Unit Bool :=
  filepathMatchF (pattern.length + 1) pattern name

/-- Render a component list as the characters of the absolute path it
denotes (`renderComps ["data", "camp"]` is `/data/camp`). -/
def renderComps : List String → List Char
  | [] => []
  | c :: rest => '/' :: c.data ++ renderComps rest

/-- The path check of `ReadFileData`/`WriteFileData`:
`pathok, _ := filepath.Match(filepath.Join(cam.path, "*"), rawpath)` with
the error discarded as in the source, so ErrBadPattern counts as no match.
The campaign path is nonempty and clean, so the Join is the rendered path
followed by the separator and the star. -/
def matchPathOk (base raw : List String) : Bool :=
  match filepathMatch (renderComps base ++ ['/', '*']) (renderComps raw) with
  | .ok b => b
  | .error _ => false

/-- `Campaign.ReadFileData`: resolve and validate the path, failing with an
internal (HTTP 500) error when the cleaned path is not directly inside the
campaign directory; on success the returned path is the file that would be
opened. -/
def ReadFileData (base : List String) (filename : String) :
    Except PTOErr (List String) :=
  let rawpath := joinedPath base filename
  if matchPathOk base rawpath then .ok rawpath
  else .error (.internalPathNotOK rawpath)

/-- `Campaign.WriteFileData`: same path validation; without `force`, an
existing data file (or any stat outcome other than not-exist) is an
AlreadyExists error; on success the returned path is the file that would be
created. -/
def WriteFileData (base : List String) (filename : String) (force : Bool)
    (fsStat : List String → StatResult) : Except PTOErr (List String) :=
  let rawpath := joinedPath base filename
  if matchPathOk base rawpath then
    if force then .ok rawpath
    else
      match fsStat rawpath with
      | .notExist => .ok rawpath
      | _ => .error (.alreadyThere "file" filename)
  else .error (.internalPathNotOK rawpath)

/-! ## Claims -/

/-- C1 counterexample: with an empty cache, the sequence at 0 and the
one-string candidate set `["a"]`, the pre-filter leaves N = 1 string but the
call moves the sequence from 0 to 2 — an advance of 2, not the claimed
exactly N = 1 (`nextval` consumes one id before `setval` reserves N more). -/
theorem c1_counterexample :
    (CacheNewPaths (fun _ => 0) ⟨0⟩ ["a"]).pathSet.length = 1 ∧
    (CacheNewPaths (fun _ => 0) ⟨0⟩ ["a"]).seq.last ≠
      (⟨0⟩ : SeqState).last + (CacheNewPaths (fun _ => 0) ⟨0⟩ ["a"]).pathSet.length := by
  refine ⟨rfl, ?_⟩
  decide

/-- C1 (amended): after the cache-only pre-filter leaves N strings,
`CacheNewPaths` advances the shared paths id sequence by exactly N + 1 (the
initial `nextval` consumes one id, then `setval` reserves N more), and
assigns the N remaining strings the N mutually distinct fresh surrogate ids
of the contiguous block starting right above the old sequence value, so that
afterward each registered string maps in the cache to exactly one of those
ids; strings outside the filtered set keep their previous cache value. -/
theorem c1_block_assignment (c : PathCache) (seq : SeqState)
    (pathSet : List String) (hnd : pathSet.Nodup) :
    (CacheNewPaths c seq pathSet).seq.last
        = seq.last + (CacheNewPaths c seq pathSet).pathSet.length + 1 ∧
    (∀ i : Fin (CacheNewPaths c seq pathSet).pathSet.length,
        (CacheNewPaths c seq pathSet).cache
            ((CacheNewPaths c seq pathSet).pathSet.get i) = seq.last + 1 + i) ∧
    (∀ i j : Fin (CacheNewPaths c seq pathSet).pathSet.length, i ≠ j →
        (CacheNewPaths c seq pathSet).cache
            ((CacheNewPaths c seq pathSet).pathSet.get i)
          ≠ (CacheNewPaths c seq pathSet).cache
            ((CacheNewPaths c seq pathSet).pathSet.get j)) ∧
    (∀ s, s ∉ (CacheNewPaths c seq pathSet).pathSet →
        (CacheNewPaths c seq pathSet).cache s = c s) := by
  have hget : ∀ i : Fin (CacheNewPaths c seq pathSet).pathSet.length,
      (CacheNewPaths c seq pathSet).cache
          ((CacheNewPaths c seq pathSet).pathSet.get i) = seq.last + 1 + i := by
    intro i
    exact cacheNewPathsLoop_get c (seq.last + 1) _ (hnd.filter _) i
  refine ⟨?_, hget, ?_, ?_⟩
  · simp only [CacheNewPaths, nextval, setval]
    omega
  · intro i j hij
    rw [hget i, hget j]
    have : (i : Nat) ≠ (j : Nat) := fun h => hij (Fin.ext h)
    omega
  · intro s hs
    exact cacheNewPathsLoop_not_mem c (seq.last + 1) _ s hs

/-- C1 witness: at the concrete input of the counterexample's family with two
fresh strings, the sequence moves from 0 to 3 (= 0 + N + 1 with N = 2) and
the first registered string receives id 1. -/
theorem c1_block_assignment_witness :
    (CacheNewPaths (fun _ => 0) ⟨0⟩ ["a", "b"]).seq.last
        = (⟨0⟩ : SeqState).last
          + (CacheNewPaths (fun _ => 0) ⟨0⟩ ["a", "b"]).pathSet.length + 1 ∧
    (CacheNewPaths (fun _ => 0) ⟨0⟩ ["a", "b"]).cache "a" = 1 := by
  have h := c1_block_assignment (fun _ => 0) ⟨0⟩ ["a", "b"] (by decide)
  exact ⟨h.1, h.2.1 ⟨0, by decide⟩⟩

/-- C4: the candidate set is mutated to retain exactly the strings absent
from the cache (those actually registered); feeding the registered set back
into a second call yields an empty output candidate set and leaves the whole
cache untouched, because every id assigned by the first call is positive and
the second call's pre-filter therefore removes every string. -/
theorem c4_second_call_empty (c : PathCache) (seq : SeqState)
    (pathSet : List String) (hnd : pathSet.Nodup) :
    (CacheNewPaths c seq pathSet).pathSet
        = pathSet.filter (fun ps => c ps == 0) ∧
    (CacheNewPaths (CacheNewPaths c seq pathSet).cache
        (CacheNewPaths c seq pathSet).seq
        (CacheNewPaths c seq pathSet).pathSet).pathSet = [] ∧
    (CacheNewPaths (CacheNewPaths c seq pathSet).cache
        (CacheNewPaths c seq pathSet).seq
        (CacheNewPaths c seq pathSet).pathSet).cache
      = (CacheNewPaths c seq pathSet).cache := by
  have hpos : ∀ s ∈ (CacheNewPaths c seq pathSet).pathSet,
      (CacheNewPaths c seq pathSet).cache s ≠ 0 := by
    intro s hs
    rcases List.mem_iff_get.mp hs with ⟨i, rfl⟩
    have h2 : (CacheNewPaths c seq pathSet).cache
        ((CacheNewPaths c seq pathSet).pathSet.get i) = seq.last + 1 + i :=
      cacheNewPathsLoop_get c (seq.last + 1) _ (hnd.filter _) i
    rw [h2]
    omega
  have hfilter : (CacheNewPaths c seq pathSet).pathSet.filter
      (fun ps => (CacheNewPaths c seq pathSet).cache ps == 0) = [] := by
    rw [List.filter_eq_nil_iff]
    intro s hs
    simpa using hpos s hs
  refine ⟨rfl, ?_, ?_⟩
  · show ((CacheNewPaths c seq pathSet).pathSet.filter
        (fun ps => (CacheNewPaths c seq pathSet).cache ps == 0)) = []
    exact hfilter
  · show cacheNewPathsLoop (CacheNewPaths c seq pathSet).cache _
        ((CacheNewPaths c seq pathSet).pathSet.filter
          (fun ps => (CacheNewPaths c seq pathSet).cache ps == 0))
      = (CacheNewPaths c seq pathSet).cache
    rw [hfilter]
    rfl

/-- C4 witness: registering `["a"]` twice from an empty cache — the first
call keeps `"a"` in the candidate set, the second call empties it and leaves
the cache as the first call built it. -/
theorem c4_second_call_empty_witness :
    (CacheNewPaths (fun _ => 0) ⟨0⟩ ["a"]).pathSet
        = (["a"] : List String).filter (fun ps => (fun _ => 0 : PathCache) ps == 0) ∧
    (CacheNewPaths (CacheNewPaths (fun _ => 0) ⟨0⟩ ["a"]).cache
        (CacheNewPaths (fun _ => 0) ⟨0⟩ ["a"]).seq
        (CacheNewPaths (fun _ => 0) ⟨0⟩ ["a"]).pathSet).pathSet = [] ∧
    (CacheNewPaths (CacheNewPaths (fun _ => 0) ⟨0⟩ ["a"]).cache
        (CacheNewPaths (fun _ => 0) ⟨0⟩ ["a"]).seq
        (CacheNewPaths (fun _ => 0) ⟨0⟩ ["a"]).pathSet).cache
      = (CacheNewPaths (fun _ => 0) ⟨0⟩ ["a"]).cache :=
  c4_second_call_empty (fun _ => 0) ⟨0⟩ ["a"] (by decide)

/-- C7: campaign-level validation fails with the missing-field error for the
owner key exactly when the owner is absent after inheritance, and succeeds in
every other case with no further requirement; file-level validation succeeds
exactly when owner, filetype, start time and end time all resolve with
inheritance, and a record with owner and filetype but no resolvable start
time fails with the missing-field error for the start-time key (whatever the
parent provides for the other fields). -/
theorem c7_validate (md : RawMetadata) :
    (md.validate true = some (.missingMetadata "_owner") ↔ md.Owner true = "") ∧
    (md.validate true = none ↔ md.Owner true ≠ "") ∧
    (md.validate false = none ↔
      (md.Owner true ≠ "" ∧ md.Filetype true ≠ "" ∧
       md.TimeStart true ≠ none ∧ md.TimeEnd true ≠ none)) ∧
    (md.Owner true ≠ "" → md.Filetype true ≠ "" → md.TimeStart true = none →
      md.validate false = some (.missingMetadata "_time_start")) := by
  refine ⟨?_, ?_, ?_, ?_⟩ <;>
    by_cases ho : md.Owner true = "" <;>
    by_cases hf : md.Filetype true = "" <;>
    by_cases hts : md.TimeStart true = none <;>
    by_cases hte : md.TimeEnd true = none <;>
    simp [RawMetadata.validate, ho, hf, hts, hte]

/-- C7 witness: a campaign record with no owner at all fails with the
missing-owner error; a file record with a filetype and an end time whose
campaign parent has an owner but no start time fails with the
missing-start-time error. -/
theorem c7_validate_witness :
    (RawMetadata.mk emptyCore none).validate true
        = some (PTOErr.missingMetadata "_owner") ∧
    (RawMetadata.mk { emptyCore with filetype := "x", timeEnd := some 10 }
        (some (RawMetadata.mk { emptyCore with owner := "alice" } none))).validate
        false = some (PTOErr.missingMetadata "_time_start") := by
  refine ⟨(c7_validate (RawMetadata.mk emptyCore none)).1.mpr (by decide), ?_⟩
  exact (c7_validate (RawMetadata.mk
      { emptyCore with filetype := "x", timeEnd := some 10 }
      (some (RawMetadata.mk { emptyCore with owner := "alice" } none)))).2.2.2
    (by decide) (by decide) (by decide)

/-- C8: a file record with an empty local owner whose campaign parent has an
owner reports the parent's owner with inherit=true and absent (empty) with
inherit=false, and the answer never depends on the parent's own parent
(inheritance falls through at most one level); the same holds for `Get` on
an extension key that is locally absent but present on the parent. -/
theorem c8_owner_get_inherit (md p : RawMetadata) (k : String)
    (hmd : md.parent = some p)
    (ho : md.core.owner = "") (hpo : p.core.owner ≠ "")
    (hk : metaGet md.core.metadata k = "")
    (hpk : metaGet p.core.metadata k ≠ "") :
    md.Owner true = p.core.owner ∧
    md.Owner false = "" ∧
    md.Get k true = metaGet p.core.metadata k ∧
    md.Get k false = "" ∧
    (∀ q : Option RawMetadata,
      (md.withParent (some (p.withParent q))).Owner true = p.core.owner ∧
      (md.withParent (some (p.withParent q))).Get k true
        = metaGet p.core.metadata k) := by
  cases md with
  | mk mc mp =>
    cases p with
    | mk pc pp =>
      simp only [RawMetadata.core] at ho hk
      simp only [RawMetadata.parent] at hmd
      subst hmd
      refine ⟨?_, ?_, ?_, ?_, ?_⟩
      · simp [RawMetadata.Owner, RawMetadata.parent, RawMetadata.core, ho]
      · simp [RawMetadata.Owner, RawMetadata.parent, RawMetadata.core, ho]
      · simp [RawMetadata.Get, RawMetadata.parent, RawMetadata.core, hk]
      · simp [RawMetadata.Get, RawMetadata.parent, RawMetadata.core, hk]
      · intro q
        constructor
        · simp [RawMetadata.Owner, RawMetadata.withParent, RawMetadata.parent,
            RawMetadata.core, ho]
        · simp [RawMetadata.Get, RawMetadata.withParent, RawMetadata.parent,
            RawMetadata.core, hk]

/-- C8 witness: a file record with empty owner and no `contact` key, under a
campaign with owner `alice` and `contact` `c@x`, inherits both with
inherit=true, reports both absent with inherit=false, and gives the same
answers whatever parent is grafted onto the campaign record. -/
theorem c8_owner_get_inherit_witness :
    (RawMetadata.mk emptyCore (some (RawMetadata.mk { emptyCore with owner := "alice", metadata := [("contact", "c@x")] } none))).Owner true = "alice" ∧
    (RawMetadata.mk emptyCore (some (RawMetadata.mk { emptyCore with owner := "alice", metadata := [("contact", "c@x")] } none))).Owner false = "" ∧
    (RawMetadata.mk emptyCore (some (RawMetadata.mk { emptyCore with owner := "alice", metadata := [("contact", "c@x")] } none))).Get "contact" true = "c@x" := by
  have h := c8_owner_get_inherit
    (RawMetadata.mk emptyCore (some (RawMetadata.mk
      { emptyCore with owner := "alice", metadata := [("contact", "c@x")] } none)))
    (RawMetadata.mk
      { emptyCore with owner := "alice", metadata := [("contact", "c@x")] } none)
    "contact" rfl (by decide) (by decide) (by decide) (by decide)
  exact ⟨h.1, h.2.1, h.2.2.1⟩

/-- C5 counterexample: for a cached file whose data file is absent and whose
sidecar stats with modification time 7, `updateFileVirtualMetadata` succeeds
and records creation time 7 — the record does have a creation time (it falls
back to the sidecar's modification time), contradicting the claim that an
absent data file leaves the record with no creation time. -/
theorem c5_counterexample :
    (updateFileVirtualMetadata [("f", some (RawMetadata.mk emptyCore none))]
        "f" .notExist (.found 0 7) "L").2 = none ∧
    cachedCreatime (updateFileVirtualMetadata
        [("f", some (RawMetadata.mk emptyCore none))]
        "f" .notExist (.found 0 7) "L").1 "f" = some 7 ∧
    (some (7 : Int)) ≠ (none : Option Int) := by
  refine ⟨rfl, rfl, by decide⟩

/-- C5 (amended): for a cached file record, when both stats succeed
`updateFileVirtualMetadata` sets `datasize` to the data file's size,
`creatime` to the data file's modification time, `modtime` to the sidecar's
modification time clamped up to `creatime` whenever it is earlier, and the
data link; when the data file is absent, `datasize` is 0 and `creatime`
falls back to the sidecar's modification time (the record keeps a creation
time), with `modtime` equal to it. -/
theorem c5_virtual_metadata (m : List (String × Option RawMetadata))
    (filename : String) (md : RawMetadata) (link : String)
    (hfind : mapFind m filename = some (some md)) :
    (∀ size dmt msize mmt,
      updateFileVirtualMetadata m filename (.found size dmt) (.found msize mmt)
          link
        = (mapSet m filename (some (md.withCore
            { md.core with
                datasize := size
                creatime := some dmt
                modtime := some (if dmt - mmt > 0 then dmt else mmt)
                datalink := link })), none)) ∧
    (∀ msize mmt,
      updateFileVirtualMetadata m filename .notExist (.found msize mmt) link
        = (mapSet m filename (some (md.withCore
            { md.core with
                datasize := 0
                creatime := some mmt
                modtime := some mmt
                datalink := link })), none)) := by
  constructor
  · intro size dmt msize mmt
    simp only [updateFileVirtualMetadata, hfind, applyVirtualMetadata,
      applyMetaStat, RawMetadata.withCore, RawMetadata.core, RawMetadata.parent]
    by_cases h : dmt - mmt > 0 <;> simp [h]
  · intro msize mmt
    simp only [updateFileVirtualMetadata, hfind, applyVirtualMetadata,
      applyMetaStat, RawMetadata.withCore, RawMetadata.core, RawMetadata.parent]

/-- C5 witness: a file of size 3 whose data file was modified at 9 and whose
sidecar was modified at 4 gets `datasize` 3, `creatime` 9 and `modtime`
clamped up to 9; the same file with no data file gets size 0 and both times
from the sidecar. -/
theorem c5_virtual_metadata_witness :
    updateFileVirtualMetadata [("f", some (RawMetadata.mk emptyCore none))]
        "f" (.found 3 9) (.found 0 4) "L"
      = ([("f", some (RawMetadata.mk
          { emptyCore with
              datasize := 3
              creatime := some 9
              modtime := some 9
              datalink := "L" } none))], none) ∧
    updateFileVirtualMetadata [("f", some (RawMetadata.mk emptyCore none))]
        "f" .notExist (.found 0 4) "L"
      = ([("f", some (RawMetadata.mk
          { emptyCore with
              datasize := 0
              creatime := some 4
              modtime := some 4
              datalink := "L" } none))], none) := by
  have h := c5_virtual_metadata [("f", some (RawMetadata.mk emptyCore none))]
    "f" (RawMetadata.mk emptyCore none) "L" rfl
  exact ⟨h.1 3 9 0 4, h.2 0 4⟩

/-- With a nil file-metadata map, the directory loop panics at the first
sidecar entry: the multi-assignment writes into a nil Go map. -/
theorem reloadLoop_nil_map_panics (camName : String) (dir : List DirEntry)
    (hd : dir.any (fun e => strEndsWith e.name FileMetadataSuffix) = true) :
    reloadLoop camName none dir = .panicked := by
  induction dir with
  | nil => simp at hd
  | cons e rest ih =>
    by_cases he : strEndsWith e.name FileMetadataSuffix = true
    · simp only [reloadLoop, he, if_pos]
    · simp only [List.any_cons, Bool.or_eq_true] at hd
      rcases hd with hd | hd
      · exact absurd hd he
      · simp only [reloadLoop, he]
        rw [if_neg (by simp [he])]
        exact ih hd

/-- C2 counterexample: a stale campaign whose cache holds a campaign record
and an (empty) file map, reloaded while the campaign-metadata file is
unreadable: the reload fails, but the in-memory campaign-metadata cache has
been overwritten with nil — the caches are not left unchanged. -/
theorem c2_counterexample :
    reloadMetadata ⟨true, some (RawMetadata.mk emptyCore none), some []⟩
        false none [] "c"
      = .err ⟨true, none, some []⟩ .wrapped ∧
    (⟨true, none, some []⟩ : CampaignState).campaignMetadata
      ≠ (⟨true, some (RawMetadata.mk emptyCore none), some []⟩ :
          CampaignState).campaignMetadata := by
  refine ⟨rfl, ?_⟩
  simp

/-- C2 (amended): `reloadMetadata` mutates the caches in place rather than
swapping them atomically. On any failure the stale flag is left as it was
(so the campaign stays stale for a later retry) but partial state is
retained: the campaign-metadata cache is overwritten before per-file
scanning — with nil when the campaign-metadata file is unreadable, with the
newly read record otherwise — and a sidecar whose parse fails leaves a nil
entry for itself (and every earlier file's entry) in the pre-existing
file-metadata map. Only on success is the stale flag cleared. -/
theorem c2_reload_mutates_in_place (cam : CampaignState) (force : Bool)
    (camFile : Option RawMetadata) (dir : List DirEntry) (camName : String) :
    (∀ st e, reloadMetadata cam force camFile dir camName = .err st e →
        st.stale = cam.stale) ∧
    (∀ st, reloadMetadata cam force camFile dir camName = .ok st →
        st.stale = false) ∧
    ((force = true ∨ cam.stale = true) → camFile = none →
        reloadMetadata cam force camFile dir camName
          = .err { cam with campaignMetadata := none } .wrapped) ∧
    ((force = true ∨ cam.stale = true) → ∀ cmd, camFile = some cmd →
        ∀ st, ((∃ e, reloadMetadata cam force camFile dir camName = .err st e) ∨
               reloadMetadata cam force camFile dir camName = .ok st ∨
               reloadMetadata cam force camFile dir camName = .panicked st) →
          st.campaignMetadata = some cmd) ∧
    ((force = true ∨ cam.stale = true) → ∀ cmd m ent rest,
        camFile = some cmd → cam.fileMetadata = some m → dir = ent :: rest →
        strEndsWith ent.name FileMetadataSuffix = true → ent.parse = none →
        reloadMetadata cam force camFile dir camName
          = .err { stale := cam.stale, campaignMetadata := some cmd
                   fileMetadata := some (mapSet m
                     (strDropRight ent.name FileMetadataSuffix.length) none) }
              .wrapped) := by
  have hguard : ∀ (h : force = true ∨ cam.stale = true),
      (!force && !cam.stale) = false := by
    rintro (h | h) <;> simp [h]
  refine ⟨?_, ?_, ?_, ?_, ?_⟩
  · intro st e h
    unfold reloadMetadata at h
    by_cases hg : (!force && !cam.stale) = true
    · rw [if_pos hg] at h
      exact absurd h (by simp)
    · rw [if_neg hg] at h
      match hcf : camFile with
      | none =>
        cases h
        rfl
      | some cmd =>
        cases hl : reloadLoop camName cam.fileMetadata dir with
        | ok fm => rw [hl] at h; exact absurd h (by simp)
        | err fm e2 => rw [hl] at h; cases h; rfl
        | panicked => rw [hl] at h; exact absurd h (by simp)
  · intro st h
    unfold reloadMetadata at h
    by_cases hg : (!force && !cam.stale) = true
    · rw [if_pos hg] at h
      cases h
      simp only [Bool.and_eq_true, Bool.not_eq_true'] at hg
      exact hg.2
    · rw [if_neg hg] at h
      match hcf : camFile with
      | none =>
        exact absurd h (by simp)
      | some cmd =>
        cases hl : reloadLoop camName cam.fileMetadata dir with
        | ok fm => rw [hl] at h; cases h; rfl
        | err fm e2 => rw [hl] at h; exact absurd h (by simp)
        | panicked => rw [hl] at h; exact absurd h (by simp)
  · intro hfs hcf
    unfold reloadMetadata
    rw [hcf, if_neg (by simp [hguard hfs])]
  · intro hfs cmd hcf st h
    unfold reloadMetadata at h
    rw [hcf, if_neg (by simp [hguard hfs])] at h
    rcases h with ⟨e, h⟩ | h | h <;>
      cases hl : reloadLoop camName cam.fileMetadata dir <;>
        rw [hl] at h <;> first
          | (cases h; rfl)
          | exact absurd h (by simp)
  · intro hfs cmd m ent rest hcf hfm hdir hsfx hparse
    subst hdir
    unfold reloadMetadata
    rw [hcf, if_neg (by simp [hguard hfs])]
    have hloop : reloadLoop camName cam.fileMetadata (ent :: rest)
        = .err (some (mapSet m
            (strDropRight ent.name FileMetadataSuffix.length) none)) .wrapped := by
      simp only [reloadLoop, hsfx, if_pos, hfm, hparse]
    rw [hloop]

/-- C2 witness: for a stale campaign with cached state, a failing reload
(unreadable campaign-metadata file) leaves the stale flag set, and the
characterized error state is produced. -/
theorem c2_reload_mutates_in_place_witness :
    reloadMetadata ⟨true, some (RawMetadata.mk emptyCore none), some []⟩
        false none [] "c"
      = .err { (⟨true, some (RawMetadata.mk emptyCore none), some []⟩ :
            CampaignState) with campaignMetadata := none } .wrapped ∧
    (⟨true, none, some []⟩ : CampaignState).stale
      = (⟨true, some (RawMetadata.mk emptyCore none), some []⟩ :
          CampaignState).stale := by
  have h := c2_reload_mutates_in_place
    ⟨true, some (RawMetadata.mk emptyCore none), some []⟩ false none [] "c"
  refine ⟨h.2.2.1 (Or.inr rfl) rfl, ?_⟩
  exact h.1 ⟨true, none, some []⟩ .wrapped (h.2.2.1 (Or.inr rfl) rfl)

/-- C10: after `unloadMetadata` the file-metadata map is nil and the stale
flag set; a subsequent reload of a campaign whose directory contains at
least one sidecar file reads the campaign metadata and then faults assigning
into the nil map (`reloadMetadata` never reallocates it), so the
stale-after-unload to loaded transition cannot complete for a non-empty
campaign. -/
theorem c10_reload_after_unload_panics (cam : CampaignState) (force : Bool)
    (cmd : RawMetadata) (dir : List DirEntry) (camName : String)
    (hd : dir.any (fun e => strEndsWith e.name FileMetadataSuffix) = true) :
    reloadMetadata (unloadMetadata cam) force (some cmd) dir camName
      = .panicked ⟨true, some cmd, none⟩ := by
  unfold reloadMetadata unloadMetadata
  rw [if_neg (by simp)]
  rw [show (reloadLoop camName (none :
      Option (List (String × Option RawMetadata))) dir) = .panicked from
    reloadLoop_nil_map_panics camName dir hd]

/-- C10 witness: a campaign unloaded and then reloaded over a directory with
one sidecar entry panics, with the campaign metadata already assigned and
the file map still nil. -/
theorem c10_reload_after_unload_panics_witness :
    reloadMetadata (unloadMetadata ⟨false, none, some []⟩) false
        (some (RawMetadata.mk emptyCore none))
        [⟨"a" ++ FileMetadataSuffix, some (RawMetadata.mk emptyCore none),
          .notExist, .found 0 0⟩] "c"
      = .panicked ⟨true, some (RawMetadata.mk emptyCore none), none⟩ :=
  c10_reload_after_unload_panics ⟨false, none, some []⟩ false
    (RawMetadata.mk emptyCore none)
    [⟨"a" ++ FileMetadataSuffix, some (RawMetadata.mk emptyCore none),
      .notExist, .found 0 0⟩] "c" (by decide)

/-- Cleaning a path that extends an already-clean prefix just folds the new
components onto that prefix. -/
theorem cleanAbs_append (base l : List String) (hclean : cleanAbs base = base) :
    cleanAbs (base ++ l) = l.foldl
      (fun acc c =>
        if c = "" ∨ c = "." then acc
        else if c = ".." then acc.dropLast
        else acc ++ [c]) base := by
  unfold cleanAbs at hclean ⊢
  rw [List.foldl_append, hclean]

/-- A chunk free of class, wildcard and escape characters never recovers
once the match has failed. -/
theorem matchChunkF_literal_failed (l : List Char) :
    ∀ (s : List Char) (fuel : Nat), l.length < fuel →
    (∀ c ∈ l, c ≠ '[' ∧ c ≠ '?' ∧ c ≠ '\\') →
    matchChunkF fuel l s true = .failed := by
  induction l with
  | nil =>
    intro s fuel hf _
    obtain ⟨f, rfl⟩ := Nat.exists_eq_succ_of_ne_zero (Nat.pos_iff_ne_zero.mp hf)
    rfl
  | cons c cs ih =>
    intro s fuel hf hl
    obtain ⟨f, rfl⟩ := Nat.exists_eq_succ_of_ne_zero
      (Nat.pos_iff_ne_zero.mp (Nat.lt_of_le_of_lt (Nat.zero_le _) hf))
    obtain ⟨h1, h2, h3⟩ := hl c (List.mem_cons_self c cs)
    have hl2 : ∀ c2 ∈ cs, c2 ≠ '[' ∧ c2 ≠ '?' ∧ c2 ≠ '\\' :=
      fun c2 hc2 => hl c2 (List.mem_cons_of_mem c hc2)
    have hf2 : cs.length < f := by
      simp only [List.length_cons] at hf
      omega
    simp only [matchChunkF]
    rw [if_neg h1, if_neg h2, if_neg h3]
    simp only [Bool.true_or]
    exact ih s f hf2 hl2

/-- A chunk free of class, wildcard and escape characters matches literally:
it succeeds exactly on names it prefixes, consuming itself. -/
theorem matchChunkF_literal (l : List Char) :
    ∀ (s : List Char) (fuel : Nat), l.length < fuel →
    (∀ c ∈ l, c ≠ '[' ∧ c ≠ '?' ∧ c ≠ '\\') →
    matchChunkF fuel l s false
      = if l.isPrefixOf s then .matched (s.drop l.length) else .failed := by
  induction l with
  | nil =>
    intro s fuel hf _
    obtain ⟨f, rfl⟩ := Nat.exists_eq_succ_of_ne_zero (Nat.pos_iff_ne_zero.mp hf)
    simp [matchChunkF, List.isPrefixOf]
  | cons c cs ih =>
    intro s fuel hf hl
    obtain ⟨f, rfl⟩ := Nat.exists_eq_succ_of_ne_zero
      (Nat.pos_iff_ne_zero.mp (Nat.lt_of_le_of_lt (Nat.zero_le _) hf))
    obtain ⟨h1, h2, h3⟩ := hl c (List.mem_cons_self c cs)
    have hl2 : ∀ c2 ∈ cs, c2 ≠ '[' ∧ c2 ≠ '?' ∧ c2 ≠ '\\' :=
      fun c2 hc2 => hl c2 (List.mem_cons_of_mem c hc2)
    have hf2 : cs.length < f := by
      simp only [List.length_cons] at hf
      omega
    simp only [matchChunkF]
    rw [if_neg h1, if_neg h2, if_neg h3]
    cases s with
    | nil =>
      simp only [List.isEmpty_nil, Bool.or_true, if_true]
      rw [matchChunkF_literal_failed cs [] f hf2 hl2]
      simp [List.isPrefixOf]
    | cons sc srest =>
      simp only [List.isEmpty_cons, Bool.or_false, if_false]
      by_cases hcs : c = sc
      · subst hcs
        rw [show (c != c) = false by simp]
        rw [ih srest f hf2 hl2]
        simp [List.isPrefixOf]
      · rw [show (c != sc) = true by simp [hcs]]
        rw [matchChunkF_literal_failed cs srest f hf2 hl2]
        rw [show ((c :: cs).isPrefixOf (sc :: srest)) = false by
          simp [List.isPrefixOf, hcs]]
        simp

/-- Scanning a star-free, class-free, escape-free chunk followed by a star
cuts exactly at the star. -/
theorem scanChunkBody_literal (l : List Char)
    (hl : ∀ c ∈ l, c ≠ '*' ∧ c ≠ '[' ∧ c ≠ '\\') :
    scanChunkBody false (l ++ ['*']) = (l, ['*']) := by
  induction l with
  | nil => rfl
  | cons c cs ih =>
    obtain ⟨h1, h2, h3⟩ := hl c (List.mem_cons_self c cs)
    have hl2 : ∀ c2 ∈ cs, c2 ≠ '*' ∧ c2 ≠ '[' ∧ c2 ≠ '\\' :=
      fun c2 hc2 => hl c2 (List.mem_cons_of_mem c hc2)
    rw [List.cons_append]
    conv_lhs => rw [scanChunkBody.eq_def]
    simp only []
    rw [if_neg h3, if_neg h2]
    by_cases hrb : c = ']'
    · rw [if_pos hrb, ih hl2]
    · rw [if_neg hrb, if_neg (by simp [h1]), ih hl2]

/-- For a pattern that is a nonempty literal (metacharacter-free) chunk
followed by `*`, `filepath.Match` succeeds exactly on names extending the
chunk by a separator-free tail. -/
theorem filepathMatch_literal_star (x : Char) (xs name : List Char)
    (hl : ∀ c ∈ x :: xs, c ≠ '*' ∧ c ≠ '[' ∧ c ≠ '?' ∧ c ≠ '\\') :
    filepathMatch ((x :: xs) ++ ['*']) name
      = .ok ((x :: xs).isPrefixOf name
          && !((name.drop (x :: xs).length).contains '/')) := by
  have hx := hl x (List.mem_cons_self x xs)
  have hscan : scanChunk ((x :: xs) ++ ['*']) = (false, x :: xs, ['*']) := by
    unfold scanChunk
    rw [List.cons_append]
    have hstrip : stripStars (x :: (xs ++ ['*'])) = (false, x :: (xs ++ ['*'])) := by
      conv_lhs => rw [stripStars.eq_def]
      simp only []
      rw [if_neg hx.1]
    rw [hstrip]
    simp only []
    rw [show (x :: (xs ++ ['*'])) = (x :: xs) ++ ['*'] by simp]
    rw [scanChunkBody_literal (x :: xs)
      (fun c hc => ⟨(hl c hc).1, (hl c hc).2.1, (hl c hc).2.2.2⟩)]
  have hchunk : matchChunkF ((x :: xs).length + 1) (x :: xs) name false
      = if (x :: xs).isPrefixOf name
        then .matched (name.drop (x :: xs).length) else .failed :=
    matchChunkF_literal (x :: xs) name ((x :: xs).length + 1) (Nat.lt_succ_self _)
      (fun c hc => ⟨(hl c hc).2.1, (hl c hc).2.2.1, (hl c hc).2.2.2⟩)
  have hlen : ((x :: xs) ++ ['*']).length + 1 = (xs.length + 2) + 1 := by
    simp
  unfold filepathMatch
  rw [hlen]
  conv_lhs => rw [filepathMatchF.eq_def]
  simp only []
  rw [show ((x :: xs) ++ ['*'] : List Char) = x :: (xs ++ ['*']) by simp]
  simp only []
  rw [show (x :: (xs ++ ['*'])) = (x :: xs) ++ ['*'] by simp]
  rw [hscan]
  simp only []
  rw [if_neg (by simp)]
  rw [hchunk]
  by_cases hpref : (x :: xs).isPrefixOf name = true
  · rw [if_pos hpref]
    simp only [List.isEmpty_cons, Bool.not_false, Bool.or_true, if_true]
    have hstar : filepathMatchF (xs.length + 2) ['*']
        (name.drop (x :: xs).length)
        = .ok (!((name.drop (x :: xs).length).contains '/')) := by
      rw [show (xs.length + 2 : Nat) = (xs.length + 1) + 1 by omega]
      conv_lhs => rw [filepathMatchF.eq_def]
      simp only []
      rw [show scanChunk ['*'] = (true, [], []) from rfl]
      simp only []
      rw [if_pos (by simp)]
    rw [hstar, hpref]
    simp
  · rw [if_neg hpref]
    simp only [if_false]
    rw [show ((x :: xs).isPrefixOf name) = false from
      Bool.not_eq_true _ ▸ (by simpa using hpref)]
    simp

/-- Appending one component to a rendered path appends a separator and the
component's characters. -/
theorem renderComps_append_single (base : List String) (c : String) :
    renderComps (base ++ [c]) = renderComps base ++ '/' :: c.data := by
  induction base with
  | nil => simp [renderComps]
  | cons b bs ih => simp [renderComps, ih]

/-- Characters of a rendered path are separators or component characters. -/
theorem renderComps_chars (l : List String) (ch : Char)
    (h : ch ∈ renderComps l) : ch = '/' ∨ ∃ c ∈ l, ch ∈ c.data := by
  induction l with
  | nil => simp [renderComps] at h
  | cons b bs ih =>
    simp only [renderComps, List.cons_append, List.mem_cons, List.mem_append] at h
    rcases h with h | h | h
    · exact Or.inl h
    · exact Or.inr ⟨b, List.mem_cons_self b bs, h⟩
    · rcases ih h with h2 | ⟨c, hc, hch⟩
      · exact Or.inl h2
      · exact Or.inr ⟨c, List.mem_cons_of_mem b hc, hch⟩

/-- Two separator-free prefixes followed by a separator split identically. -/
theorem slash_split (u : List Char) :
    ∀ (v x y : List Char), '/' ∉ u → '/' ∉ v →
    u ++ '/' :: x = v ++ '/' :: y → u = v ∧ x = y := by
  induction u with
  | nil =>
    intro v x y _ hv h
    cases v with
    | nil => simpa using h
    | cons vc vt =>
      simp only [List.nil_append, List.cons_append, List.cons.injEq] at h
      exact absurd (h.1 ▸ List.mem_cons_self vc vt) (h.1 ▸ hv)
  | cons uc ut ih =>
    intro v x y hu hv h
    cases v with
    | nil =>
      simp only [List.cons_append, List.nil_append, List.cons.injEq] at h
      exact absurd (h.1 ▸ List.mem_cons_self uc ut) fun hh => hu (h.1 ▸ hh)
    | cons vc vt =>
      simp only [List.cons_append, List.cons.injEq] at h
      obtain ⟨rfl, h2⟩ := h
      have hu2 : '/' ∉ ut := fun hh => hu (List.mem_cons_of_mem _ hh)
      have hv2 : '/' ∉ vt := fun hh => hv (List.mem_cons_of_mem _ hh)
      obtain ⟨rfl, rfl⟩ := ih vt x y hu2 hv2 h2
      exact ⟨rfl, rfl⟩

/-- Parsing a rendered path: if every component on either side is
separator-free, a rendered path equal to a rendered prefix plus a separator
and a separator-free tail is that prefix plus the tail as one component. -/
theorem renderComps_parse (base : List String) :
    ∀ (raw : List String) (t : List Char),
    (∀ c ∈ base, '/' ∉ c.data) → (∀ c ∈ raw, '/' ∉ c.data) → '/' ∉ t →
    renderComps raw = renderComps base ++ '/' :: t →
    raw = base ++ [String.mk t] := by
  induction base with
  | nil =>
    intro raw t _ hraw ht h
    simp only [renderComps, List.nil_append] at h
    cases raw with
    | nil => simp [renderComps] at h
    | cons r rs =>
      cases rs with
      | nil =>
        simp only [renderComps, List.append_nil, List.cons_append,
          List.cons.injEq, true_and] at h
        cases r with
        | mk rdata =>
          simp only at h
          rw [List.nil_append, h]
      | cons r2 rs2 =>
        exfalso
        simp only [renderComps, List.cons_append, List.cons.injEq,
          true_and] at h
        rw [← h] at ht
        exact ht (by simp)
  | cons b bs ih =>
    intro raw t hbase hraw ht h
    cases raw with
    | nil => simp [renderComps] at h
    | cons r rs =>
      simp only [renderComps, List.cons_append, List.cons.injEq, true_and,
        List.append_assoc] at h
      -- h : r.data ++ renderComps rs = b.data ++ (renderComps bs ++ '/' :: t)
      cases rs with
      | nil =>
        exfalso
        have hsl : '/' ∈ b.data ++ (renderComps bs ++ '/' :: t) := by simp
        rw [← h] at hsl
        simp only [renderComps, List.append_nil] at hsl
        exact hraw r (List.mem_cons_self r []) hsl
      | cons r2 rs2 =>
        have hb : '/' ∉ b.data := hbase b (List.mem_cons_self b bs)
        have hr : '/' ∉ r.data := hraw r (List.mem_cons_self r (r2 :: rs2))
        have hshape : ∃ y, b.data ++ (renderComps bs ++ '/' :: t)
            = b.data ++ '/' :: y := by
          cases bs with
          | nil => exact ⟨t, by simp [renderComps]⟩
          | cons b2 bs2 =>
            exact ⟨b2.data ++ renderComps bs2 ++ '/' :: t, by
              simp [renderComps]⟩
        obtain ⟨y, hy⟩ := hshape
        have hy2 : renderComps bs ++ '/' :: t = '/' :: y :=
          List.append_cancel_left hy
        have hhead : r.data ++ '/' :: (r2.data ++ renderComps rs2)
            = b.data ++ '/' :: y := by
          rw [← hy, ← h]
          simp [renderComps]
        obtain ⟨hdata, htail⟩ :=
          slash_split r.data b.data (r2.data ++ renderComps rs2) y hr hb hhead
        have hrb : r = b := by
          cases r with
          | mk rd =>
            cases b with
            | mk bd =>
              rw [show rd = bd from hdata]
        subst hrb
        have hrs : renderComps (r2 :: rs2) = renderComps bs ++ '/' :: t := by
          rw [hy2]
          simp only [renderComps, List.cons_append]
          rw [htail]
        have := ih (r2 :: rs2) t
          (fun c hc => hbase c (List.mem_cons_of_mem r hc))
          (fun c hc => hraw c (List.mem_cons_of_mem r hc)) ht hrs
        rw [this]
        simp

/-- Components surviving `cleanAbs` come from the input. -/
theorem cleanAbs_mem (l : List String) (c : String) (h : c ∈ cleanAbs l) :
    c ∈ l := by
  suffices haux : ∀ (l2 : List String) (acc : List String), c ∈ List.foldl
      (fun acc c2 =>
        if c2 = "" ∨ c2 = "." then acc
        else if c2 = ".." then acc.dropLast
        else acc ++ [c2]) acc l2 → c ∈ acc ∨ c ∈ l2 by
    rcases haux l [] h with h2 | h2
    · simp at h2
    · exact h2
  intro l2
  induction l2 with
  | nil => intro acc h2; exact Or.inl h2
  | cons a t ih =>
    intro acc h2
    rw [List.foldl_cons] at h2
    rcases ih _ h2 with h3 | h3
    · by_cases ha1 : a = "" ∨ a = "."
      · rw [if_pos ha1] at h3
        exact Or.inl h3
      · rw [if_neg ha1] at h3
        by_cases ha2 : a = ".."
        · rw [if_pos ha2] at h3
          exact Or.inl (List.IsPrefix.subset (List.dropLast_prefix acc) h3)
        · rw [if_neg ha2] at h3
          rcases List.mem_append.mp h3 with h4 | h4
          · exact Or.inl h4
          · simp only [List.mem_singleton] at h4
            exact Or.inr (h4 ▸ List.mem_cons_self a t)
    · exact Or.inr (List.mem_cons_of_mem a h3)

/-- Groups produced by separator splitting contain no separator. -/
theorem splitOnSlash_no_slash (l : List Char) :
    ∀ g ∈ splitOnSlash l, '/' ∉ g := by
  induction l with
  | nil =>
    intro g hg
    simp only [splitOnSlash, List.mem_singleton] at hg
    simp [hg]
  | cons c rest ih =>
    intro g hg
    by_cases hc : c = '/'
    · rw [show splitOnSlash (c :: rest) = [] :: splitOnSlash rest by
        conv_lhs => rw [splitOnSlash.eq_def]
        simp only []
        rw [if_pos hc]] at hg
      rcases List.mem_cons.mp hg with rfl | hg2
      · simp
      · exact ih g hg2
    · rw [show splitOnSlash (c :: rest) = (match splitOnSlash rest with
          | [] => [[c]]
          | g2 :: gs => (c :: g2) :: gs) by
        conv_lhs => rw [splitOnSlash.eq_def]
        simp only []
        rw [if_neg hc]] at hg
      cases hsp : splitOnSlash rest with
      | nil =>
        rw [hsp] at hg
        simp only [List.mem_singleton] at hg
        subst hg
        simp only [List.mem_singleton]
        exact fun heq => hc heq.symm
      | cons g2 gs =>
        rw [hsp] at hg
        rcases List.mem_cons.mp hg with rfl | hg2
        · intro hmem
          rcases List.mem_cons.mp hmem with heq | hmem2
          · exact hc heq.symm
          · exact ih g2 (hsp ▸ List.mem_cons_self g2 gs) hmem2
        · exact ih g (hsp ▸ List.mem_cons_of_mem g2 hg2)

/-- Components of a split filename contain no separator. -/
theorem splitPath_no_slash (s : String) (c : String) (h : c ∈ splitPath s) :
    '/' ∉ c.data := by
  unfold splitPath at h
  rcases List.mem_map.mp h with ⟨g, hg, rfl⟩
  exact splitOnSlash_no_slash s.data g hg

/-- Components of a resolved path carry no separator when the campaign
path's components are separator-free. -/
theorem joinedPath_no_slash (base : List String) (filename : String)
    (hchars : ∀ c ∈ base, ∀ ch ∈ c.data,
      ch ≠ '/' ∧ ch ≠ '*' ∧ ch ≠ '[' ∧ ch ≠ '?' ∧ ch ≠ '\\') :
    ∀ c ∈ joinedPath base filename, '/' ∉ c.data := by
  intro c hc
  have hmem := cleanAbs_mem _ c hc
  rcases List.mem_append.mp hmem with hm | hm
  · exact fun hsl => (hchars c hm '/' hsl).1 rfl
  · exact splitPath_no_slash filename c hm

/-- For a campaign path whose components are free of the separator and of
the glob metacharacters, the pattern is literal and the check asks exactly
that the rendered campaign path plus a separator be a prefix of the
rendered candidate with no further separator after it. -/
theorem matchPathOk_spec (base raw : List String) (hne : base ≠ [])
    (hchars : ∀ c ∈ base, ∀ ch ∈ c.data,
      ch ≠ '/' ∧ ch ≠ '*' ∧ ch ≠ '[' ∧ ch ≠ '?' ∧ ch ≠ '\\') :
    matchPathOk base raw
      = ((renderComps base ++ ['/']).isPrefixOf (renderComps raw)
          && !(((renderComps raw).drop
              (renderComps base ++ ['/']).length).contains '/')) := by
  cases base with
  | nil => exact absurd rfl hne
  | cons b bs =>
    have hshape : renderComps (b :: bs) ++ ['/', '*']
        = (('/' :: (b.data ++ renderComps bs ++ ['/'])) ++ ['*']) := by
      simp [renderComps]
    have hl : ∀ c ∈ '/' :: (b.data ++ renderComps bs ++ ['/']),
        c ≠ '*' ∧ c ≠ '[' ∧ c ≠ '?' ∧ c ≠ '\\' := by
      intro c hc
      rcases List.mem_cons.mp hc with rfl | hc2
      · decide
      · rcases List.mem_append.mp hc2 with hc3 | hc3
        · rcases List.mem_append.mp hc3 with hc4 | hc4
          · have hh := hchars b (List.mem_cons_self b bs) c hc4
            exact ⟨hh.2.1, hh.2.2.1, hh.2.2.2.1, hh.2.2.2.2⟩
          · rcases renderComps_chars bs c hc4 with rfl | ⟨comp, hcomp, hch⟩
            · decide
            · have hh := hchars comp (List.mem_cons_of_mem b hcomp) c hch
              exact ⟨hh.2.1, hh.2.2.1, hh.2.2.2.1, hh.2.2.2.2⟩
        · simp only [List.mem_singleton] at hc3
          subst hc3
          decide
    have hstar := filepathMatch_literal_star '/'
      (b.data ++ renderComps bs ++ ['/']) (renderComps raw) hl
    unfold matchPathOk
    rw [hshape, hstar]
    rfl

/-- Passing the check with a metacharacter-free campaign path means the
candidate is the campaign path plus exactly one separator-free component. -/
theorem matchPathOk_true (base raw : List String) (hne : base ≠ [])
    (hchars : ∀ c ∈ base, ∀ ch ∈ c.data,
      ch ≠ '/' ∧ ch ≠ '*' ∧ ch ≠ '[' ∧ ch ≠ '?' ∧ ch ≠ '\\')
    (hraw : ∀ c ∈ raw, '/' ∉ c.data)
    (h : matchPathOk base raw = true) :
    ∃ t : List Char, '/' ∉ t ∧ raw = base ++ [String.mk t] := by
  rw [matchPathOk_spec base raw hne hchars, Bool.and_eq_true] at h
  obtain ⟨h1, h2⟩ := h
  rw [List.isPrefixOf_iff_prefix] at h1
  obtain ⟨t, ht⟩ := h1
  have hdrop : (renderComps raw).drop (renderComps base ++ ['/']).length
      = t := by
    rw [← ht, List.drop_left]
  rw [hdrop] at h2
  have hnt : '/' ∉ t := by simpa using h2
  refine ⟨t, hnt, ?_⟩
  apply renderComps_parse base raw t
    (fun c hc hm => (hchars c hc '/' hm).1 rfl) hraw hnt
  rw [← ht, List.append_assoc]
  rfl

/-- A direct child of a metacharacter-free campaign path passes the check. -/
theorem matchPathOk_child (base : List String) (fn : String) (hne : base ≠ [])
    (hchars : ∀ c ∈ base, ∀ ch ∈ c.data,
      ch ≠ '/' ∧ ch ≠ '*' ∧ ch ≠ '[' ∧ ch ≠ '?' ∧ ch ≠ '\\')
    (hfn : '/' ∉ fn.data) :
    matchPathOk base (base ++ [fn]) = true := by
  rw [matchPathOk_spec base (base ++ [fn]) hne hchars,
    renderComps_append_single]
  have hpref : (renderComps base ++ ['/'])
      <+: (renderComps base ++ '/' :: fn.data) :=
    ⟨fn.data, by simp⟩
  rw [List.isPrefixOf_iff_prefix.mpr hpref]
  have hdrop : (renderComps base ++ '/' :: fn.data).drop
      (renderComps base ++ ['/']).length = fn.data := by
    rw [show renderComps base ++ '/' :: fn.data
        = (renderComps base ++ ['/']) ++ fn.data by simp, List.drop_left]
  rw [hdrop]
  simp [hfn]

/-- C6 counterexample: `"a/../b"` contains a traversal and a directory
component yet both `ReadFileData` and `WriteFileData` accept it (it cleans
to a direct child); and because the campaign path is used as a glob
pattern, campaign `camp[1]` accepts `"../camp1/x"` and resolves it to a
path outside the campaign directory, while campaign `camp[` (a malformed
pattern) rejects even the plain direct-child filename `"a.dat"`. -/
theorem c6_counterexample :
    ReadFileData ["data", "camp"] "a/../b" = .ok ["data", "camp", "b"]
    ∧ WriteFileData ["data", "camp"] "a/../b" true (fun _ => .notExist)
        = .ok ["data", "camp", "b"]
    ∧ ReadFileData ["data", "camp[1]"] "../camp1/x"
        = .ok ["data", "camp1", "x"]
    ∧ ReadFileData ["data", "camp["] "a.dat"
        = .error (.internalPathNotOK ["data", "camp[", "a.dat"]) :=
  ⟨rfl, rfl, rfl, rfl⟩

/-- C6 (amended): for a campaign directory that is clean, nonempty and
whose components contain neither the separator nor a glob metacharacter
(`*`, `?`, `[`, `\x5c`), ReadFileData and WriteFileData return a path only
when it is the campaign directory plus exactly one component (so nothing
outside the campaign directory is read or created), `"../secret"` fails
with the internal path error before any file operation, and every plain
filename (one component, not empty, `.` or `..`) passes the check and
resolves directly inside the campaign directory. -/
theorem c6_path_check (base : List String)
    (hclean : cleanAbs base = base) (hne : base ≠ [])
    (hchars : ∀ c ∈ base, ∀ ch ∈ c.data,
      ch ≠ '/' ∧ ch ≠ '*' ∧ ch ≠ '[' ∧ ch ≠ '?' ∧ ch ≠ '\\') :
    (∀ (filename : String) (p : List String),
      ReadFileData base filename = .ok p → ∃ c, p = base ++ [c])
    ∧ (∀ (filename : String) (force : Bool)
        (fsStat : List String → StatResult) (p : List String),
      WriteFileData base filename force fsStat = .ok p → ∃ c, p = base ++ [c])
    ∧ ReadFileData base "../secret"
        = .error (.internalPathNotOK (base.dropLast ++ ["secret"]))
    ∧ (∀ (force : Bool) (fsStat : List String → StatResult),
      WriteFileData base "../secret" force fsStat
        = .error (.internalPathNotOK (base.dropLast ++ ["secret"])))
    ∧ (∀ fn : String, splitPath fn = [fn] →
        fn ≠ "" → fn ≠ "." → fn ≠ ".." →
        ReadFileData base fn = .ok (base ++ [fn])) := by
  have hok : ∀ (filename : String) (p : List String),
      matchPathOk base (joinedPath base filename) = true →
      joinedPath base filename = p → ∃ c, p = base ++ [c] := by
    intro filename p hm hp
    obtain ⟨t, _, heq⟩ := matchPathOk_true base (joinedPath base filename)
      hne hchars (joinedPath_no_slash base filename hchars) hm
    exact ⟨String.mk t, hp ▸ heq⟩
  have hjp : joinedPath base "../secret" = base.dropLast ++ ["secret"] := by
    unfold joinedPath
    rw [show splitPath "../secret" = ["..", "secret"] from rfl]
    rw [cleanAbs_append base _ hclean]
    rw [List.foldl_cons, List.foldl_cons, List.foldl_nil]
    rw [if_neg (by decide), if_neg (by decide), if_neg (by decide),
      if_pos (by decide)]
  have hrawsec : ∀ c ∈ base.dropLast ++ ["secret"], '/' ∉ c.data := by
    intro c hc
    rcases List.mem_append.mp hc with hm | hm
    · have hmb := List.IsPrefix.subset (List.dropLast_prefix base) hm
      exact fun hsl => (hchars c hmb '/' hsl).1 rfl
    · simp only [List.mem_singleton] at hm
      subst hm
      decide
  have hmfalse : matchPathOk base (base.dropLast ++ ["secret"]) = false := by
    by_contra hcon
    rw [Bool.not_eq_false] at hcon
    obtain ⟨t, _, heq⟩ := matchPathOk_true base _ hne hchars hrawsec hcon
    have hlen := congrArg List.length heq
    have hpos : 0 < base.length := List.length_pos.mpr hne
    simp only [List.length_append, List.length_dropLast,
      List.length_cons, List.length_nil] at hlen
    omega
  refine ⟨?_, ?_, ?_, ?_, ?_⟩
  · intro filename p h
    unfold ReadFileData at h
    by_cases hm : matchPathOk base (joinedPath base filename)
    · rw [if_pos hm] at h
      exact hok filename p hm (Except.ok.injEq _ _ ▸ h)
    · rw [if_neg hm] at h
      exact absurd h (by simp)
  · intro filename force fsStat p h
    unfold WriteFileData at h
    by_cases hm : matchPathOk base (joinedPath base filename)
    · rw [if_pos hm] at h
      cases force with
      | true =>
        rw [if_pos rfl] at h
        exact hok filename p hm (Except.ok.injEq _ _ ▸ h)
      | false =>
        rw [if_neg (by simp)] at h
        cases hstat : fsStat (joinedPath base filename) with
        | notExist =>
          rw [hstat] at h
          exact hok filename p hm (Except.ok.injEq _ _ ▸ h)
        | found sz mt =>
          rw [hstat] at h
          exact absurd h (by simp)
        | otherError =>
          rw [hstat] at h
          exact absurd h (by simp)
    · rw [if_neg hm] at h
      exact absurd h (by simp)
  · unfold ReadFileData
    simp only [hjp, hmfalse]
    simp
  · intro force fsStat
    unfold WriteFileData
    simp only [hjp, hmfalse]
    simp
  · intro fn hsp h1 h2 h3
    have hjfn : joinedPath base fn = base ++ [fn] := by
      unfold joinedPath
      rw [hsp, cleanAbs_append base _ hclean]
      rw [List.foldl_cons, List.foldl_nil]
      rw [if_neg (by simp [h1, h2]), if_neg h3]
    have hfnsl : '/' ∉ fn.data :=
      splitPath_no_slash fn fn (hsp ▸ List.mem_cons_self fn [])
    unfold ReadFileData
    simp only [hjfn, matchPathOk_child base fn hne hchars hfnsl]
    simp

/-- C6 witness: in campaign `/data/camp`, reading `"../secret"` fails with
the internal error on the escaped path and the plain filename `"a.dat"`
is accepted at `/data/camp/a.dat`. -/
theorem c6_path_check_witness :
    ReadFileData ["data", "camp"] "../secret"
      = .error (.internalPathNotOK ["data", "secret"])
    ∧ ReadFileData ["data", "camp"] "a.dat"
      = .ok ["data", "camp", "a.dat"] := by
  have h := c6_path_check ["data", "camp"] (by decide) (by decide) (by decide)
  exact ⟨h.2.2.1, h.2.2.2.2 "a.dat" rfl (by decide) (by decide) (by decide)⟩

/-- C9: decoding an observation line never fails because of a malformed
set-id slot: for any array of at least five elements whose two timestamp
slots parse and whose optional sixth slot (when present) parses, decoding
succeeds even when the first slot is not an integer, in which case the
`strconv.Atoi` error is discarded (overwritten by the next assignment to
`err`) and the set id is left 0. -/
theorem c9_setid_error_discarded (recv : Observation) (a b c d e : JVal)
    (rest : List JVal)
    (hb : (jvalTime b).isSome = true) (hc2 : (jvalTime c).isSome = true)
    (hrest : ∀ f g, rest = f :: g → (jvalAtoi f).isSome = true)
    (ha : jvalAtoi a = none) :
    ∃ obs2, unmarshalObservation recv (a :: b :: c :: d :: e :: rest)
        = .ok obs2 ∧ obs2.setID = 0 := by
  obtain ⟨st, hst⟩ := Option.isSome_iff_exists.mp hb
  obtain ⟨en, hen⟩ := Option.isSome_iff_exists.mp hc2
  cases rest with
  | nil =>
    simp only [unmarshalObservation, hst, hen, ha]
    exact ⟨_, rfl, rfl⟩
  | cons f g =>
    obtain ⟨v, hv⟩ := Option.isSome_iff_exists.mp (hrest f g rfl)
    simp only [unmarshalObservation, hst, hen, ha, hv]
    exact ⟨_, rfl, rfl⟩

/-- C9 witness: a five-element line whose first slot is the non-integer
string `"xyz"` decodes successfully with set id 0. -/
theorem c9_setid_error_discarded_witness :
    ∃ obs2, unmarshalObservation zeroObservation
        [.jstr "xyz", .jtime 100, .jtime 200, .jstr "p", .jstr "c"]
        = .ok obs2 ∧ obs2.setID = 0 :=
  c9_setid_error_discarded zeroObservation (.jstr "xyz") (.jtime 100)
    (.jtime 200) (.jstr "p") (.jstr "c") [] (by decide) (by decide)
    (fun f g h => List.noConfusion h) (by decide)

/-- A map assignment with a key absent from the map appends the binding. -/
theorem mapSet_fresh {α : Type} (m : List (String × α)) (k : String) (v : α)
    (h : ∀ e ∈ m, e.1 ≠ k) : mapSet m k v = m ++ [(k, v)] := by
  unfold mapSet
  rw [if_neg]
  intro hany
  rw [List.any_eq_true] at hany
  obtain ⟨e, he, hbeq⟩ := hany
  exact h e he (by simpa using hbeq)

/-- Folding map assignments of pairwise-fresh keys appends them in order. -/
theorem foldl_mapSet_fresh (m : List (String × JVal)) (l : List (String × String))
    (hfresh : ∀ kv ∈ l, ∀ e ∈ m, e.1 ≠ kv.1)
    (hnd : (l.map Prod.fst).Nodup) :
    l.foldl (fun acc kv => mapSet acc kv.1 (JVal.jstr kv.2)) m
      = m ++ l.map (fun kv => (kv.1, JVal.jstr kv.2)) := by
  induction l generalizing m with
  | nil => simp
  | cons kv t ih =>
    simp only [List.foldl_cons, List.map_cons]
    rw [mapSet_fresh m kv.1 (JVal.jstr kv.2)
      (fun e he => hfresh kv (List.mem_cons_self kv t) e he)]
    rw [ih (m ++ [(kv.1, JVal.jstr kv.2)]) ?fresh ?nd]
    · simp
    case fresh =>
      intro kv2 hkv2 e he
      rcases List.mem_append.mp he with he | he
      · exact hfresh kv2 (List.mem_cons_of_mem kv hkv2) e he
      · simp only [List.mem_singleton] at he
        subst he
        simp only [List.map_cons, List.nodup_cons] at hnd
        intro heq
        exact hnd.1 (heq ▸ List.mem_map_of_mem Prod.fst hkv2)
    case nd =>
      simp only [List.map_cons, List.nodup_cons] at hnd
      exact hnd.2

/-- A key that is not one of the two mandatory keys and does not start with a
double underscore differs from every derived key. -/
theorem key_fresh (k : String) (h3 : strStartsWith k "__" = false) :
    k ≠ "__link" ∧ k ≠ "__data" ∧ k ≠ "__obs_count" := by
  refine ⟨?_, ?_, ?_⟩ <;> rintro rfl <;> exact absurd h3 (by decide)

/-- The set-decoding key loop ignores a block of double-underscore keys. -/
theorem setLoop_skip (s : ObservationSet) (opts rest : List (String × JVal))
    (h : ∀ kv ∈ opts, strStartsWith kv.1 "__" = true) :
    setLoop s (opts ++ rest) = setLoop s rest := by
  induction opts generalizing s with
  | nil => simp
  | cons kv t ih =>
    have hkv := h kv (List.mem_cons_self kv t)
    have h1 : kv.1 ≠ "_sources" := by
      rintro he
      rw [he] at hkv
      exact absurd hkv (by decide)
    have h2 : kv.1 ≠ "_analyzer" := by
      rintro he
      rw [he] at hkv
      exact absurd hkv (by decide)
    obtain ⟨k, v⟩ := kv
    simp only [List.cons_append, setLoop]
    rw [if_neg h1, if_neg h2, if_pos hkv]
    exact ih s (fun kv2 hkv2 => h kv2 (List.mem_cons_of_mem _ hkv2))

/-- The set-decoding key loop turns a block of fresh plain keys into
metadata entries, in order. -/
theorem setLoop_metadata (s : ObservationSet) (l : List (String × String))
    (hkv : ∀ kv ∈ l, kv.1 ≠ "_sources" ∧ kv.1 ≠ "_analyzer" ∧
        strStartsWith kv.1 "__" = false)
    (hnd : (l.map Prod.fst).Nodup)
    (hdisj : ∀ kv ∈ l, ∀ e ∈ s.metadata, e.1 ≠ kv.1) :
    setLoop s (l.map (fun kv => (kv.1, JVal.jstr kv.2)))
      = .ok { s with metadata := s.metadata ++ l } := by
  induction l generalizing s with
  | nil => simp [setLoop]
  | cons kv t ih =>
    obtain ⟨hk1, hk2, hk3⟩ := hkv kv (List.mem_cons_self kv t)
    obtain ⟨k, v⟩ := kv
    simp only [List.map_cons, setLoop]
    rw [if_neg hk1, if_neg hk2, if_neg (by rw [hk3]; exact Bool.false_ne_true)]
    rw [mapSet_fresh s.metadata k (asString (JVal.jstr v))
      (fun e he => hdisj (k, v) (List.mem_cons_self _ t) e he)]
    rw [ih { s with metadata := s.metadata ++ [(k, asString (JVal.jstr v))] }
      (fun kv2 hkv2 => hkv kv2 (List.mem_cons_of_mem _ hkv2)) ?nd ?disj]
    · simp only [asString]
      rw [List.append_assoc]
      rfl
    case nd =>
      simp only [List.map_cons, List.nodup_cons] at hnd
      exact hnd.2
    case disj =>
      intro kv2 hkv2 e he
      rcases List.mem_append.mp he with he | he
      · exact hdisj kv2 (List.mem_cons_of_mem _ hkv2) e he
      · simp only [List.mem_singleton] at he
        subst he
        simp only [List.map_cons, List.nodup_cons] at hnd
        intro heq
        refine hnd.1 ?_
        have h5 : kv2.1 ∈ t.map Prod.fst := List.mem_map_of_mem Prod.fst hkv2
        simp only [← heq] at h5
        simpa using h5

/-- Decoding a JSON object consisting of the two mandatory keys, a block of
double-underscore keys and a block of fresh plain keys recovers the sources,
the analyzer and exactly the plain keys as metadata. -/
theorem unmarshalSet_normal (srcs : List String) (az : String)
    (opts : List (String × JVal))
    (hopts : ∀ kv ∈ opts, strStartsWith kv.1 "__" = true)
    (l : List (String × String))
    (hkv : ∀ kv ∈ l, kv.1 ≠ "_sources" ∧ kv.1 ≠ "_analyzer" ∧
        strStartsWith kv.1 "__" = false)
    (hnd : (l.map Prod.fst).Nodup) (ha : az ≠ "") :
    unmarshalObservationSet zeroObservationSet
        (([("_sources", JVal.jarr srcs), ("_analyzer", JVal.jstr az)] ++ opts)
          ++ l.map (fun kv => (kv.1, JVal.jstr kv.2)))
      = .ok { id := 0, sources := some srcs, analyzer := az, metadata := l
              datalink := "", link := "", count := 0 } := by
  unfold unmarshalObservationSet
  rw [List.append_assoc]
  have hstep : ∀ rest : List (String × JVal),
      setLoop { zeroObservationSet with metadata := [], id := 0 }
        (("_sources", JVal.jarr srcs) :: ("_analyzer", JVal.jstr az) :: rest)
      = setLoop { id := 0, sources := some srcs, analyzer := az, metadata := []
                  datalink := "", link := "", count := 0 } rest :=
    fun rest => rfl
  simp only [List.cons_append, List.nil_append]
  rw [hstep]
  rw [setLoop_skip _ opts _ hopts]
  rw [setLoop_metadata _ l hkv hnd (by simp)]
  simp only [List.nil_append]
  rw [if_neg (by simp), if_neg ha]

/-- C3: for a valid observation (path and condition records present),
`MarshalJSON` produces the ordered array
`[setId, start, end, pathString, conditionName]` with the value appended
exactly when non-zero, and `UnmarshalJSON` of that array into a fresh
observation recovers the set id, the UTC start and end instants, the path
string, the condition name and the value; likewise, for a set with non-nil
sources, a non-empty analyzer and extension metadata whose keys are distinct
and outside the reserved namespace, `MarshalJSON` followed by
`UnmarshalJSON` into a fresh set preserves `_sources`, `_analyzer` and all
extension metadata keys. -/
theorem c3_roundtrip (obs : Observation) (p : Path) (c : Condition)
    (hp : obs.path = some p) (hc : obs.condition = some c)
    (s : ObservationSet) (srcs : List String)
    (hs : s.sources = some srcs) (ha : s.analyzer ≠ "")
    (hkeys : ∀ kv ∈ s.metadata, kv.1 ≠ "_sources" ∧ kv.1 ≠ "_analyzer" ∧
        strStartsWith kv.1 "__" = false)
    (hnd : (s.metadata.map Prod.fst).Nodup) :
    marshalObservation obs
      = some ([JVal.jnum obs.setID, JVal.jtime obs.start, JVal.jtime obs.stop,
               JVal.jstr p.string, JVal.jstr c.name]
          ++ (if obs.value ≠ 0 then [JVal.jnum obs.value] else [])) ∧
    unmarshalObservation zeroObservation
        ([JVal.jnum obs.setID, JVal.jtime obs.start, JVal.jtime obs.stop,
          JVal.jstr p.string, JVal.jstr c.name]
          ++ (if obs.value ≠ 0 then [JVal.jnum obs.value] else []))
      = .ok { id := 0, setID := obs.setID, start := obs.start, stop := obs.stop
              pathID := 0, path := some { id := 0, string := p.string }
              conditionID := 0, condition := some { id := 0, name := c.name }
              value := obs.value } ∧
    unmarshalObservationSet zeroObservationSet (marshalObservationSet s)
      = .ok { id := 0, sources := some srcs, analyzer := s.analyzer
              metadata := s.metadata, datalink := "", link := "", count := 0 } := by
  refine ⟨?_, ?_, ?_⟩
  · simp only [marshalObservation, hp, hc]
  · by_cases hv : obs.value = 0
    · rw [if_neg (fun hne => hne hv)]
      rw [List.append_nil, hv]
      rfl
    · rw [if_pos hv]
      rfl
  · by_cases hl : s.link ≠ "" <;> by_cases hd : s.datalink ≠ "" <;>
      by_cases hcnt : s.count ≠ 0
    · simp only [marshalObservationSet, hs]
      rw [if_pos hl, if_pos hd, if_pos hcnt]
      rw [foldl_mapSet_fresh _ _ (by
        intro kv hkv e he
        obtain ⟨h1, h2, h3⟩ := hkeys kv hkv
        obtain ⟨h4, h5, h6⟩ := key_fresh kv.1 h3
        have he2 : e ∈ ([("_sources", JVal.jarr srcs), ("_analyzer", JVal.jstr s.analyzer), ("__link", JVal.jstr s.link), ("__data", JVal.jstr s.datalink), ("__obs_count", JVal.jnum s.count)]) := he
        fin_cases he2 <;>
          first
            | exact Ne.symm h1
            | exact Ne.symm h2
            | exact Ne.symm h4
            | exact Ne.symm h5
            | exact Ne.symm h6) hnd]
      show unmarshalObservationSet zeroObservationSet
          (([("_sources", JVal.jarr srcs), ("_analyzer", JVal.jstr s.analyzer)]
            ++ [("__link", JVal.jstr s.link), ("__data", JVal.jstr s.datalink), ("__obs_count", JVal.jnum s.count)])
            ++ s.metadata.map (fun kv => (kv.1, JVal.jstr kv.2))) = _
      exact unmarshalSet_normal srcs s.analyzer [("__link", JVal.jstr s.link), ("__data", JVal.jstr s.datalink), ("__obs_count", JVal.jnum s.count)]
        (by intro kv hkv; fin_cases hkv <;> rfl) s.metadata hkeys hnd ha
    · simp only [marshalObservationSet, hs]
      rw [if_pos hl, if_pos hd, if_neg hcnt]
      rw [foldl_mapSet_fresh _ _ (by
        intro kv hkv e he
        obtain ⟨h1, h2, h3⟩ := hkeys kv hkv
        obtain ⟨h4, h5, h6⟩ := key_fresh kv.1 h3
        have he2 : e ∈ ([("_sources", JVal.jarr srcs), ("_analyzer", JVal.jstr s.analyzer), ("__link", JVal.jstr s.link), ("__data", JVal.jstr s.datalink)]) := he
        fin_cases he2 <;>
          first
            | exact Ne.symm h1
            | exact Ne.symm h2
            | exact Ne.symm h4
            | exact Ne.symm h5
            | exact Ne.symm h6) hnd]
      show unmarshalObservationSet zeroObservationSet
          (([("_sources", JVal.jarr srcs), ("_analyzer", JVal.jstr s.analyzer)]
            ++ [("__link", JVal.jstr s.link), ("__data", JVal.jstr s.datalink)])
            ++ s.metadata.map (fun kv => (kv.1, JVal.jstr kv.2))) = _
      exact unmarshalSet_normal srcs s.analyzer [("__link", JVal.jstr s.link), ("__data", JVal.jstr s.datalink)]
        (by intro kv hkv; fin_cases hkv <;> rfl) s.metadata hkeys hnd ha
    · simp only [marshalObservationSet, hs]
      rw [if_pos hl, if_neg hd, if_pos hcnt]
      rw [foldl_mapSet_fresh _ _ (by
        intro kv hkv e he
        obtain ⟨h1, h2, h3⟩ := hkeys kv hkv
        obtain ⟨h4, h5, h6⟩ := key_fresh kv.1 h3
        have he2 : e ∈ ([("_sources", JVal.jarr srcs), ("_analyzer", JVal.jstr s.analyzer), ("__link", JVal.jstr s.link), ("__obs_count", JVal.jnum s.count)]) := he
        fin_cases he2 <;>
          first
            | exact Ne.symm h1
            | exact Ne.symm h2
            | exact Ne.symm h4
            | exact Ne.symm h5
            | exact Ne.symm h6) hnd]
      show unmarshalObservationSet zeroObservationSet
          (([("_sources", JVal.jarr srcs), ("_analyzer", JVal.jstr s.analyzer)]
            ++ [("__link", JVal.jstr s.link), ("__obs_count", JVal.jnum s.count)])
            ++ s.metadata.map (fun kv => (kv.1, JVal.jstr kv.2))) = _
      exact unmarshalSet_normal srcs s.analyzer [("__link", JVal.jstr s.link), ("__obs_count", JVal.jnum s.count)]
        (by intro kv hkv; fin_cases hkv <;> rfl) s.metadata hkeys hnd ha
    · simp only [marshalObservationSet, hs]
      rw [if_pos hl, if_neg hd, if_neg hcnt]
      rw [foldl_mapSet_fresh _ _ (by
        intro kv hkv e he
        obtain ⟨h1, h2, h3⟩ := hkeys kv hkv
        obtain ⟨h4, h5, h6⟩ := key_fresh kv.1 h3
        have he2 : e ∈ ([("_sources", JVal.jarr srcs), ("_analyzer", JVal.jstr s.analyzer), ("__link", JVal.jstr s.link)]) := he
        fin_cases he2 <;>
          first
            | exact Ne.symm h1
            | exact Ne.symm h2
            | exact Ne.symm h4
            | exact Ne.symm h5
            | exact Ne.symm h6) hnd]
      show unmarshalObservationSet zeroObservationSet
          (([("_sources", JVal.jarr srcs), ("_analyzer", JVal.jstr s.analyzer)]
            ++ [("__link", JVal.jstr s.link)])
            ++ s.metadata.map (fun kv => (kv.1, JVal.jstr kv.2))) = _
      exact unmarshalSet_normal srcs s.analyzer [("__link", JVal.jstr s.link)]
        (by intro kv hkv; fin_cases hkv <;> rfl) s.metadata hkeys hnd ha
    · simp only [marshalObservationSet, hs]
      rw [if_neg hl, if_pos hd, if_pos hcnt]
      rw [foldl_mapSet_fresh _ _ (by
        intro kv hkv e he
        obtain ⟨h1, h2, h3⟩ := hkeys kv hkv
        obtain ⟨h4, h5, h6⟩ := key_fresh kv.1 h3
        have he2 : e ∈ ([("_sources", JVal.jarr srcs), ("_analyzer", JVal.jstr s.analyzer), ("__data", JVal.jstr s.datalink), ("__obs_count", JVal.jnum s.count)]) := he
        fin_cases he2 <;>
          first
            | exact Ne.symm h1
            | exact Ne.symm h2
            | exact Ne.symm h4
            | exact Ne.symm h5
            | exact Ne.symm h6) hnd]
      show unmarshalObservationSet zeroObservationSet
          (([("_sources", JVal.jarr srcs), ("_analyzer", JVal.jstr s.analyzer)]
            ++ [("__data", JVal.jstr s.datalink), ("__obs_count", JVal.jnum s.count)])
            ++ s.metadata.map (fun kv => (kv.1, JVal.jstr kv.2))) = _
      exact unmarshalSet_normal srcs s.analyzer [("__data", JVal.jstr s.datalink), ("__obs_count", JVal.jnum s.count)]
        (by intro kv hkv; fin_cases hkv <;> rfl) s.metadata hkeys hnd ha
    · simp only [marshalObservationSet, hs]
      rw [if_neg hl, if_pos hd, if_neg hcnt]
      rw [foldl_mapSet_fresh _ _ (by
        intro kv hkv e he
        obtain ⟨h1, h2, h3⟩ := hkeys kv hkv
        obtain ⟨h4, h5, h6⟩ := key_fresh kv.1 h3
        have he2 : e ∈ ([("_sources", JVal.jarr srcs), ("_analyzer", JVal.jstr s.analyzer), ("__data", JVal.jstr s.datalink)]) := he
        fin_cases he2 <;>
          first
            | exact Ne.symm h1
            | exact Ne.symm h2
            | exact Ne.symm h4
            | exact Ne.symm h5
            | exact Ne.symm h6) hnd]
      show unmarshalObservationSet zeroObservationSet
          (([("_sources", JVal.jarr srcs), ("_analyzer", JVal.jstr s.analyzer)]
            ++ [("__data", JVal.jstr s.datalink)])
            ++ s.metadata.map (fun kv => (kv.1, JVal.jstr kv.2))) = _
      exact unmarshalSet_normal srcs s.analyzer [("__data", JVal.jstr s.datalink)]
        (by intro kv hkv; fin_cases hkv <;> rfl) s.metadata hkeys hnd ha
    · simp only [marshalObservationSet, hs]
      rw [if_neg hl, if_neg hd, if_pos hcnt]
      rw [foldl_mapSet_fresh _ _ (by
        intro kv hkv e he
        obtain ⟨h1, h2, h3⟩ := hkeys kv hkv
        obtain ⟨h4, h5, h6⟩ := key_fresh kv.1 h3
        have he2 : e ∈ ([("_sources", JVal.jarr srcs), ("_analyzer", JVal.jstr s.analyzer), ("__obs_count", JVal.jnum s.count)]) := he
        fin_cases he2 <;>
          first
            | exact Ne.symm h1
            | exact Ne.symm h2
            | exact Ne.symm h4
            | exact Ne.symm h5
            | exact Ne.symm h6) hnd]
      show unmarshalObservationSet zeroObservationSet
          (([("_sources", JVal.jarr srcs), ("_analyzer", JVal.jstr s.analyzer)]
            ++ [("__obs_count", JVal.jnum s.count)])
            ++ s.metadata.map (fun kv => (kv.1, JVal.jstr kv.2))) = _
      exact unmarshalSet_normal srcs s.analyzer [("__obs_count", JVal.jnum s.count)]
        (by intro kv hkv; fin_cases hkv <;> rfl) s.metadata hkeys hnd ha
    · simp only [marshalObservationSet, hs]
      rw [if_neg hl, if_neg hd, if_neg hcnt]
      rw [foldl_mapSet_fresh _ _ (by
        intro kv hkv e he
        obtain ⟨h1, h2, h3⟩ := hkeys kv hkv
        obtain ⟨h4, h5, h6⟩ := key_fresh kv.1 h3
        have he2 : e ∈ ([("_sources", JVal.jarr srcs), ("_analyzer", JVal.jstr s.analyzer)]) := he
        fin_cases he2 <;>
          first
            | exact Ne.symm h1
            | exact Ne.symm h2
            | exact Ne.symm h4
            | exact Ne.symm h5
            | exact Ne.symm h6) hnd]
      show unmarshalObservationSet zeroObservationSet
          (([("_sources", JVal.jarr srcs), ("_analyzer", JVal.jstr s.analyzer)]
            ++ ([] : List (String × JVal)))
            ++ s.metadata.map (fun kv => (kv.1, JVal.jstr kv.2))) = _
      exact unmarshalSet_normal srcs s.analyzer ([] : List (String × JVal))
        (by intro kv hkv; fin_cases hkv <;> rfl) s.metadata hkeys hnd ha

/-- C3 witness: the observation `[3, t100, t200, "1.2.3.4 * 5.6.7.8",
"pto.test.succeeded"]` round-trips through the codec, and a set with two
sources, analyzer `a` and one extension key round-trips preserving all
wire-visible fields. -/
theorem c3_roundtrip_witness :
    (marshalObservation
        { id := 7, setID := 3, start := 100, stop := 200, pathID := 0
          path := some { id := 9, string := "1.2.3.4 * 5.6.7.8" }
          conditionID := 0
          condition := some { id := 4, name := "pto.test.succeeded" }
          value := 0 }
      = some [JVal.jnum 3, JVal.jtime 100, JVal.jtime 200,
              JVal.jstr "1.2.3.4 * 5.6.7.8", JVal.jstr "pto.test.succeeded"]) ∧
    (unmarshalObservation zeroObservation
        [JVal.jnum 3, JVal.jtime 100, JVal.jtime 200,
         JVal.jstr "1.2.3.4 * 5.6.7.8", JVal.jstr "pto.test.succeeded"]
      = .ok { id := 0, setID := 3, start := 100, stop := 200, pathID := 0
              path := some { id := 0, string := "1.2.3.4 * 5.6.7.8" }
              conditionID := 0
              condition := some { id := 0, name := "pto.test.succeeded" }
              value := 0 }) ∧
    (unmarshalObservationSet zeroObservationSet (marshalObservationSet
        { id := 5, sources := some ["s1", "s2"], analyzer := "a"
          metadata := [("description", "d")], datalink := "", link := ""
          count := 0 })
      = .ok { id := 0, sources := some ["s1", "s2"], analyzer := "a"
              metadata := [("description", "d")], datalink := "", link := ""
              count := 0 }) := by
  have h := c3_roundtrip
    { id := 7, setID := 3, start := 100, stop := 200, pathID := 0
      path := some { id := 9, string := "1.2.3.4 * 5.6.7.8" }
      conditionID := 0
      condition := some { id := 4, name := "pto.test.succeeded" }
      value := 0 }
    { id := 9, string := "1.2.3.4 * 5.6.7.8" }
    { id := 4, name := "pto.test.succeeded" } rfl rfl
    { id := 5, sources := some ["s1", "s2"], analyzer := "a"
      metadata := [("description", "d")], datalink := "", link := ""
      count := 0 }
    ["s1", "s2"] rfl (by decide)
    (by intro kv hkv; fin_cases hkv <;> exact ⟨by decide, by decide, by decide⟩)
    (by decide)
  exact ⟨h.1, h.2.1, h.2.2⟩

end PTO3
